import Mathlib

/-!
# Verification of the `trust` kernel core

A shallow embedding of the memory-management and task subsystems of the
`trust` kernel (Rust), together with proofs of the specification's claims
about them.

Machine integers (`usize`/`u64`) are modelled as `Nat`; wrap-around is made
explicit with `% 2 ^ 64` at the places where the Rust code can overflow.
Rust `panic!`/failed `assert!`/`expect` are modelled by returning `none`
from the embedded operation.  Conventions are noted at each definition.
-/

namespace Trust

/-- `PAGE_SIZE` from `src/memory/mod.rs`. -/
def PAGE_SIZE : Nat := 4096

/-- `HEAP_START` from `src/memory/mod.rs`. -/
def HEAP_START : Nat := 0x444444440000

/-- `HEAP_SIZE` from `src/memory/mod.rs` (100 KiB). -/
def HEAP_SIZE : Nat := 100 * 1024

/-- `HEAP_END` from `src/memory/mod.rs`. -/
def HEAP_END : Nat := HEAP_START + HEAP_SIZE

/-- 2^64, the modulus of `u64`/`usize` arithmetic on the x86_64 target. -/
def U64MOD : Nat := 2 ^ 64

/-! ## Area frame allocator (`src/memory/area_frame_allocator.rs`)

`Frame` is a wrapper over a frame index (`addr / PAGE_SIZE`); we represent a
frame by its index directly.  A `MemoryArea` (from the `multiboot2` crate)
is consumed through `start_address()` and `size()` only, so it is embedded
as that pair of fields. -/

/-- A bootloader memory area: the `start_address()` and `size()` pair that
`AreaFrameAllocator` reads from the `multiboot2::MemoryArea` values. -/
structure MemoryArea where
  start : Nat
  size : Nat
  deriving DecidableEq, Repr

/-- `Frame::containing_address` from `src/memory/mod.rs`: frame index of an
address. -/
def frameContaining (addr : Nat) : Nat := addr / PAGE_SIZE

/-- The last address of an area, `area.start_address() + area.size() - 1`,
computed in wrapping `u64` arithmetic as the Rust expression is. -/
def areaLastAddr (a : MemoryArea) : Nat := (a.start + a.size + (U64MOD - 1)) % U64MOD

/-- Frame index of the last frame of an area, as computed in
`AreaFrameAllocator::allocate_frame` and `pick_next_area`. -/
def areaLastFrame (a : MemoryArea) : Nat := frameContaining (areaLastAddr a)

/-- Frame index of the first frame of an area
(`Frame::containing_address(area.start_address())`). -/
def areaStartFrame (a : MemoryArea) : Nat := frameContaining a.start

/-- The state of `AreaFrameAllocator`: cursor frame, current area, the full
area list and the captured kernel/boot-info frame bounds. -/
structure AreaFrameAllocator where
  nextFreeFrame : Nat
  currentArea : Option MemoryArea
  areas : List MemoryArea
  kernelStart : Nat
  kernelEnd : Nat
  mbiStart : Nat
  mbiEnd : Nat
  deriving Repr

/-- Accumulator loop of `minByStart`. -/
def minByStartAux : Option MemoryArea → List MemoryArea → Option MemoryArea
  | acc, [] => acc
  | acc, a :: rest =>
      minByStartAux
        (match acc with
        | none => some a
        | some b => if a.start ≤ b.start then some a else some b)
        rest

/-- The `min_by_key(start_address)` fold used by `pick_next_area`.  Rust's
`min_by_key` returns the last of several equally-minimal elements, so a
later element replaces the accumulator when its key is `≤`. -/
def minByStart (l : List MemoryArea) : Option MemoryArea :=
  minByStartAux none l

/-- `AreaFrameAllocator::pick_next_area`: select, among the areas whose last
frame is at least the cursor, the one with the least start address; then
bump the cursor up to that area's first frame if it lies below it. -/
def pickNextArea (st : AreaFrameAllocator) : AreaFrameAllocator :=
  match minByStart (st.areas.filter (fun a => st.nextFreeFrame ≤ areaLastFrame a)) with
  | some area =>
      { st with
        currentArea := some area
        nextFreeFrame :=
          if st.nextFreeFrame < areaStartFrame area then areaStartFrame area
          else st.nextFreeFrame }
  | none => { st with currentArea := none }

/-- `AreaFrameAllocator::new` (the cursor starts at frame 0 and
`pick_next_area` is run once). -/
def afaNew (kernelStart kernelEnd mbiStart mbiEnd : Nat) (areas : List MemoryArea) :
    AreaFrameAllocator :=
  pickNextArea
    { nextFreeFrame := 0
      currentArea := none
      areas := areas
      kernelStart := frameContaining kernelStart
      kernelEnd := frameContaining kernelEnd
      mbiStart := frameContaining mbiStart
      mbiEnd := frameContaining mbiEnd }

/-- `AreaFrameAllocator::allocate_frame`.  The Rust function is recursive;
its termination argument (the cursor is bounded by the last area and grows
on every pass that does not return) is made explicit with a `fuel`
parameter: with fuel exhausted the embedding answers `none` without
consuming the state.  All theorems are stated about calls that return. -/
def allocateFrame : Nat → AreaFrameAllocator → Option Nat × AreaFrameAllocator
  | 0, st => (none, st)
  | fuel + 1, st =>
    match st.currentArea with
    | none => (none, st)
    | some area =>
        let frame := st.nextFreeFrame
        if areaLastFrame area < frame then
          allocateFrame fuel (pickNextArea st)
        else if st.kernelStart ≤ frame ∧ frame ≤ st.kernelEnd then
          allocateFrame fuel { st with nextFreeFrame := st.kernelEnd + 1 }
        else if st.mbiStart ≤ frame ∧ frame ≤ st.mbiEnd then
          allocateFrame fuel { st with nextFreeFrame := st.mbiEnd + 1 }
        else
          (some frame, { st with nextFreeFrame := frame + 1 })

/-- Well-formedness of an allocator state: whenever a current area is
selected it comes from the area list and its first frame is at or below the
cursor.  Established by `afaNew` and preserved by `allocate_frame`. -/
def AfaWF (st : AreaFrameAllocator) : Prop :=
  ∀ a, st.currentArea = some a → a ∈ st.areas ∧ areaStartFrame a ≤ st.nextFreeFrame

/-- Run `k` consecutive `allocate_frame` calls (each with its own fuel),
returning the final state; used to speak about call sequences. -/
def allocRun : List Nat → AreaFrameAllocator → AreaFrameAllocator
  | [], st => st
  | fuel :: rest, st => allocRun rest (allocateFrame fuel st).2

/-! ## Page tables and `Mapper` (`src/memory/paging/`)

`src/memory/paging/entry.rs` is not part of the sources (only its users
`table.rs` and `mapper.rs` are), so the entry type is modelled from the
spec.  Page-table frames are addressed through the recursive mapping in the
running kernel; the virtual address computed by
`Table::next_table_address_unchecked` resolves — through the active
recursive mapping — to the physical table in the frame the entry points to,
so the model reads that frame from a physical-memory map directly. -/

/-- The page-table entry flags consumed by `table.rs`/`mapper.rs`
(`PRESENT`, `WRITABLE`, `HUGE_PAGE`).  Modelled from the spec: "64-bit value
with flag bits \{PRESENT, WRITABLE, ..., HUGE_PAGE, ...\}" (`entry.rs` is
not among the sources). -/
structure EntryFlags where
  present : Bool
  writable : Bool
  huge : Bool
  deriving DecidableEq, Repr

/-- The `|` (union) of two flag sets. -/
def EntryFlags.union (f g : EntryFlags) : EntryFlags :=
  ⟨f.present || g.present, f.writable || g.writable, f.huge || g.huge⟩

/-- `EntryFlags::PRESENT`. -/
def EntryFlags.PRESENT : EntryFlags := ⟨true, false, false⟩

/-- `EntryFlags::WRITABLE`. -/
def EntryFlags.WRITABLE : EntryFlags := ⟨false, true, false⟩

/-- `EntryFlags::empty()`. -/
def EntryFlags.empty : EntryFlags := ⟨false, false, false⟩

/-- A page-table entry.  Modelled from the spec: a masked frame pointer plus
the flag bits; `entry.rs` is not among the sources.  Operations follow the
spec's list: `flags()` (the `flags` field), `pointed_frame()`, `set`,
`set_unused`. -/
structure Entry where
  frame : Nat
  flags : EntryFlags
  deriving DecidableEq, Repr

/-- `Entry::set_unused` writes the all-zero entry; this is also the initial
content of a zeroed table. -/
def Entry.unused : Entry := ⟨0, ⟨false, false, false⟩⟩

/-- `Entry::is_unused` (the entry is all-zero). -/
def Entry.isUnused (e : Entry) : Bool := e = Entry.unused

/-- `Entry::pointed_frame`: `Some` of the stored frame iff `PRESENT`. -/
def Entry.pointedFrame (e : Entry) : Option Nat :=
  if e.flags.present then some e.frame else none

/-- `Entry::set(frame, flags)`. -/
def Entry.set (f : Nat) (fl : EntryFlags) : Entry := ⟨f, fl⟩

/-- `ENTRY_COUNT` from `src/memory/paging/mod.rs`. -/
def ENTRY_COUNT : Nat := 512

/-- Physical memory as seen by the page-table walk: a table (index ↦ entry)
for every frame number. -/
def PhysMem : Type := Nat → Nat → Entry

/-- Write one entry of one table. -/
def setEntry (m : PhysMem) (tf i : Nat) (e : Entry) : PhysMem :=
  Function.update m tf (Function.update (m tf) i e)

/-- `Table::zero` result: the all-unused table. -/
def zeroTable : Nat → Entry := fun _ => Entry.unused

/-- `Page::p4_index` from `src/memory/paging/mod.rs`:
`(number >> 27) & 0o777`, written as division and remainder. -/
def p4Index (p : Nat) : Nat := p / 2 ^ 27 % 512

/-- `Page::p3_index`: `(number >> 18) & 0o777`. -/
def p3Index (p : Nat) : Nat := p / 2 ^ 18 % 512

/-- `Page::p2_index`: `(number >> 9) & 0o777`. -/
def p2Index (p : Nat) : Nat := p / 2 ^ 9 % 512

/-- `Page::p1_index`: `number & 0o777`. -/
def p1Index (p : Nat) : Nat := p % 512

/-- The canonical-address check of `Page::containing_address`: the address
must not lie in the non-canonical hole
`0x0000_8000_0000_0000 .. 0xffff800000000000`, and it is a `usize`. -/
def canonicalAddr (addr : Nat) : Prop :=
  addr < 0x800000000000 ∨ (0xffff800000000000 ≤ addr ∧ addr < U64MOD)

/-- A page number whose start address is canonical. -/
def canonicalPage (p : Nat) : Prop := canonicalAddr (p * PAGE_SIZE)

/-- The state of `Mapper` together with its frame allocator.  The generic
`A: FrameAllocator` argument of `map_to`/`map`/`unmap` is modelled as a
supply of fresh frames (`next` is the next frame to hand out), matching the
allocator contract (spec §3: frames handed out are unused and never handed
out twice); `kfree_frame`/`deallocate_frame` is a no-op in the source
(`TODO`), so freeing does not change the state. -/
structure Mapper where
  mem : PhysMem
  p4 : Nat
  next : Nat

/-- `Table::next_table` (via `next_table_address`): the frame of the next
table, available iff the entry is `PRESENT` and not `HUGE_PAGE`. -/
def nextTableFrame (m : PhysMem) (tf i : Nat) : Option Nat :=
  if (m tf i).flags.present && !(m tf i).flags.huge then some (m tf i).frame else none

/-- `Table::next_table_create`: return the existing next table, or allocate
a fresh frame, point the entry at it (`PRESENT | WRITABLE`) and zero it.
Panics (`none`) when the entry is a huge page.  The final re-read mirrors
the source's `self.next_table_mut(index).unwrap()`. -/
def nextTableCreate (st : Mapper) (tf i : Nat) : Option (Mapper × Nat) :=
  match nextTableFrame st.mem tf i with
  | some g => some (st, g)
  | none =>
      if (st.mem tf i).flags.huge then none
      else
        match nextTableFrame
            (Function.update (setEntry st.mem tf i (Entry.set st.next ⟨true, true, false⟩))
              st.next zeroTable) tf i with
        | some g' =>
            some ({ st with
                      mem := Function.update
                        (setEntry st.mem tf i (Entry.set st.next ⟨true, true, false⟩))
                        st.next zeroTable
                      next := st.next + 1 }, g')
        | none => none

/-- `Mapper::map_to(page, frame, flags, allocator)`: create the L3/L2/L1
tables as needed, require the L1 entry unused, then set it to
`frame` with `flags | PRESENT`.  `none` models the panics. -/
def mapTo (st : Mapper) (p f : Nat) (fl : EntryFlags) : Option Mapper :=
  match nextTableCreate st st.p4 (p4Index p) with
  | none => none
  | some (st1, f3) =>
    match nextTableCreate st1 f3 (p3Index p) with
    | none => none
    | some (st2, f2) =>
      match nextTableCreate st2 f2 (p2Index p) with
      | none => none
      | some (st3, f1) =>
        if (st3.mem f1 (p1Index p)).isUnused then
          some { st3 with
                  mem := setEntry st3.mem f1 (p1Index p)
                    (Entry.set f (fl.union EntryFlags.PRESENT)) }
        else none

/-- `Mapper::map(page, flags, allocator)`: pull a fresh frame from the
allocator, then `map_to`. -/
def mapPage (st : Mapper) (p : Nat) (fl : EntryFlags) : Option Mapper :=
  let f := st.next
  mapTo { st with next := st.next + 1 } p f fl

/-- 2 MiB / 1 GiB huge-page fallback of `Mapper::translate_page`
(`calculate_huge_page_frame`), second half: the 2 MiB check on the L2
entry. -/
def hugeCalcL2 (m : PhysMem) (a p : Nat) : Option Nat :=
  match nextTableFrame m a (p3Index p) with
  | none => none
  | some b =>
      match (m b (p2Index p)).pointedFrame with
      | some sf =>
          if (m b (p2Index p)).flags.huge then
            if sf % ENTRY_COUNT = 0 then some (sf + p1Index p) else none
          else none
      | none => none

/-- `Mapper::calculate_huge_page_frame`: given the (optional) L3 table of
the page, recognise 1 GiB and 2 MiB mappings; `none` also models the
alignment `assert!` panics. -/
def hugeCalc (m : PhysMem) (f3 : Option Nat) (p : Nat) : Option Nat :=
  match f3 with
  | none => none
  | some a =>
      match (m a (p3Index p)).pointedFrame with
      | some sf =>
          if (m a (p3Index p)).flags.huge then
            if sf % (ENTRY_COUNT * ENTRY_COUNT) = 0 then
              some (sf + p2Index p * ENTRY_COUNT + p1Index p)
            else none
          else hugeCalcL2 m a p
      | none => hugeCalcL2 m a p

/-- `Mapper::translate_page`: the L4→L3→L2→L1 walk, falling back to the
huge-page computation. -/
def translatePage (st : Mapper) (p : Nat) : Option Nat :=
  match
    (((nextTableFrame st.mem st.p4 (p4Index p)).bind fun a =>
        nextTableFrame st.mem a (p3Index p)).bind fun b =>
      nextTableFrame st.mem b (p2Index p)).bind fun c =>
        (st.mem c (p1Index p)).pointedFrame
  with
  | some r => some r
  | none => hugeCalc st.mem (nextTableFrame st.mem st.p4 (p4Index p)) p

/-- `Mapper::translate(addr)`: translate the page and add the page offset.
The canonicality `assert!` of `Page::containing_address` is modelled by
answering `none` outside the canonical range. -/
def translate (st : Mapper) (addr : Nat) : Option Nat :=
  if addr < 0x800000000000 ∨ 0xffff800000000000 ≤ addr then
    (translatePage st (addr / PAGE_SIZE)).map fun fr => fr * PAGE_SIZE + addr % PAGE_SIZE
  else none

/-- `Mapper::unmap(page, allocator)`: assert the page translates, walk to
the L1 table (`expect`ing no huge page on the path), read the pointed
frame, clear the entry.  The TLB flush has no memory-model effect and
`kfree_frame` is a no-op (`deallocate_frame` is a stub). -/
def unmap (st : Mapper) (p : Nat) : Option Mapper :=
  if (translate st (p * PAGE_SIZE)).isSome then
    match nextTableFrame st.mem st.p4 (p4Index p) with
    | none => none
    | some a =>
      match nextTableFrame st.mem a (p3Index p) with
      | none => none
      | some b =>
        match nextTableFrame st.mem b (p2Index p) with
        | none => none
        | some c =>
          match (st.mem c (p1Index p)).pointedFrame with
          | none => none
          | some _ => some { st with mem := setEntry st.mem c (p1Index p) Entry.unused }
  else none

/-- Frame-boundedness of a mapper state: the active P4 frame and every
present entry's target lie below the allocator's fresh counter — i.e. the
allocator only hands out frames that are not in use, which is the
`FrameAllocator` contract the kernel relies on. -/
def FrameBound (st : Mapper) : Prop :=
  st.p4 < st.next ∧ ∀ tf i, (st.mem tf i).flags.present → (st.mem tf i).frame < st.next

/-- No-aliasing of the in-use table graph: distinct present entries point
to distinct frames and never back to the P4 frame.  This is the shape of
every hierarchy built by `map`/`map_to` from fresh frames; the deliberate
exception in the running kernel — the recursive entry 511 of the P4 —
is not part of the page ranges the claims quantify over. -/
def NoAlias (st : Mapper) : Prop :=
  (∀ tf i, tf < st.next → (st.mem tf i).flags.present → (st.mem tf i).frame ≠ st.p4) ∧
    ∀ tf i tf' i', tf < st.next → tf' < st.next →
      (st.mem tf i).flags.present → (st.mem tf' i').flags.present →
      (st.mem tf i).frame = (st.mem tf' i').frame → tf = tf' ∧ i = i'

/-- The L4→L3→L2 prefix of a page walk: the frames of the L3, L2 and L1
tables traversed for page `p`. -/
def WalkPath (st : Mapper) (p f3 f2 f1 : Nat) : Prop :=
  nextTableFrame st.mem st.p4 (p4Index p) = some f3 ∧
    nextTableFrame st.mem f3 (p3Index p) = some f2 ∧
    nextTableFrame st.mem f2 (p2Index p) = some f1

/-- Two page numbers that disagree in at least one of the four table
indices (equivalent to inequality for canonical pages). -/
def indicesNe (p q : Nat) : Prop :=
  ¬(p4Index p = p4Index q ∧ p3Index p = p3Index q ∧
    p2Index p = p2Index q ∧ p1Index p = p1Index q)

/-- A mapper state over empty tables: frame 0 is the (empty) P4, frame 1 is
the next free frame.  Used by concrete witnesses. -/
def emptyMapper : Mapper := ⟨fun _ _ => Entry.unused, 0, 1⟩

/-- The complete effect of a successful `map_to` on the state, recorded
against the walk frames `f3`, `f2`, `f1` of the mapped page: the final walk
and L1 entry, monotonicity, preservation of previously present entries, the
exact set of changed positions, the zeroing of freshly created tables, and
the freshness of tables behind changed path entries. -/
structure MapToFacts (st st' : Mapper) (p f : Nat) (fl : EntryFlags)
    (f3 f2 f1 : Nat) : Prop where
  walk : WalkPath st' p f3 f2 f1
  entry : st'.mem f1 (p1Index p) = Entry.set f (fl.union EntryFlags.PRESENT)
  b3 : f3 < st'.next
  b2 : f2 < st'.next
  b1 : f1 < st'.next
  mono : st.next ≤ st'.next
  p4eq : st'.p4 = st.p4
  pres : ∀ a j, a < st.next → (st.mem a j).flags.present → st'.mem a j = st.mem a j
  delta : ∀ a j, st'.mem a j ≠ st.mem a j →
    (a = st.p4 ∧ j = p4Index p) ∨ (a = f3 ∧ j = p3Index p) ∨
      (a = f2 ∧ j = p2Index p) ∨ (a = f1 ∧ j = p1Index p) ∨ st.next ≤ a
  fresh3 : st.next ≤ f3 → ∀ j, j ≠ p3Index p → st'.mem f3 j = Entry.unused
  fresh2 : st.next ≤ f2 → ∀ j, j ≠ p2Index p → st'.mem f2 j = Entry.unused
  fresh1 : st.next ≤ f1 → ∀ j, j ≠ p1Index p → st'.mem f1 j = Entry.unused
  new3 : st'.mem st.p4 (p4Index p) ≠ st.mem st.p4 (p4Index p) → st.next ≤ f3
  new2 : st'.mem f3 (p3Index p) ≠ st.mem f3 (p3Index p) → st.next ≤ f2
  new1 : st'.mem f2 (p2Index p) ≠ st.mem f2 (p2Index p) → st.next ≤ f1
  ne4 : ¬(st.p4 = f1 ∧ p4Index p = p1Index p)
  ne3 : ¬(f3 = f1 ∧ p3Index p = p1Index p)
  ne2 : ¬(f2 = f1 ∧ p2Index p = p1Index p)
  chain32 : st.next ≤ f3 → st.next ≤ f2
  chain21 : st.next ≤ f2 → st.next ≤ f1
  ord32 : st.next ≤ f2 → f3 < f2
  ord21 : st.next ≤ f1 → f2 < f1
  freshCover : ∀ a, st.next ≤ a → a < st'.next → a = f3 ∨ a = f2 ∨ a = f1
  bound : f < st.next → FrameBound st'

/-! ## Stack allocator (`src/memory/stack_allocator.rs`) -/

/-- `PageIter` from `src/memory/paging/mod.rs`: an inclusive range of page
numbers (`start`, `end`). -/
structure PageIter where
  start : Nat
  stop : Nat
  deriving DecidableEq, Repr

/-- `Iterator::next` for `PageIter`. -/
def PageIter.nextPage (it : PageIter) : Option Nat × PageIter :=
  if it.start ≤ it.stop then (some it.start, { it with start := it.start + 1 })
  else (none, it)

/-- Rust's `Iterator::nth(k)`: advance `k + 1` times, returning the last
element reached (or `none` if the iterator ran out). -/
def PageIter.nth : PageIter → Nat → Option Nat × PageIter
  | it, 0 => it.nextPage
  | it, k + 1 =>
    match it.nextPage with
    | (none, it') => (none, it')
    | (some _, it') => it'.nth k

/-- `Page::range_inclusive(start, end)` as the list of page numbers it
yields. -/
def pageRangeInclusive (s e : Nat) : List Nat := List.range' s (e + 1 - s)

/-- `Stack` from `src/memory/stack_allocator.rs`. -/
structure Stack where
  top : Nat
  bottom : Nat
  deriving DecidableEq, Repr

/-- Map every page of a list with `active_table.map(page, WRITABLE, ..)`;
`none` models a panic of `map`. -/
def mapPages (st : Mapper) : List Nat → Option Mapper
  | [] => some st
  | p :: rest =>
    match mapPage st p EntryFlags.WRITABLE with
    | none => none
    | some st' => mapPages st' rest

/-- `StackAllocator::alloc_stack(active_table, frame_allocator, n_pages)`.
Returns `none` for a panic; `some (res, mapper, cursor)` mirrors the Rust
return value plus the two pieces of mutable state (page-table/allocator
state and the stack allocator's range).  On the failure paths the Rust
method leaves `self.range` untouched and maps nothing. -/
def allocStack (st : Mapper) (sa : PageIter) (n : Nat) :
    Option (Option Stack × Mapper × PageIter) :=
  if n = 0 then some (none, st, sa)
  else
    match sa.nextPage with
    | (g?, it1) =>
      match it1.nextPage with
      | (s?, it2) =>
        match (if n = 1 then (s?, it2) else it2.nth (n - 2)) with
        | (e?, it3) =>
          match g?, s?, e? with
          | some _, some s, some e =>
              match mapPages st (pageRangeInclusive s e) with
              | none => none
              | some st' =>
                  if s * PAGE_SIZE < e * PAGE_SIZE + PAGE_SIZE then
                    some (some ⟨e * PAGE_SIZE + PAGE_SIZE, s * PAGE_SIZE⟩, st', it3)
                  else none
          | _, _, _ => some (none, st, sa)

/-- The page range handed to `StackAllocator::new` by `memory::init`:
`heap_end + 1 .. heap_end + 1 + 100` where `heap_end` is the page
containing `HEAP_END - 1`. -/
def kernelStackRange : PageIter :=
  ⟨(HEAP_END - 1) / PAGE_SIZE + 1, (HEAP_END - 1) / PAGE_SIZE + 1 + 100⟩

/-! ## GDT / TSS (`src/gdt.rs`) -/

/-- `DOUBLE_FAULT_IST_INDEX` from `src/gdt.rs`. -/
def DOUBLE_FAULT_IST_INDEX : Nat := 0

/-- The local `STACK_SIZE` constant of the TSS initialiser in `src/gdt.rs`:
`4096 * 5`. -/
def GDT_STACK_SIZE : Nat := 4096 * 5

/-- The interrupt-stack-table of the TSS (only the `interrupt_stack_table`
array matters to the claims; `TaskStateSegment::new` zero-initialises it).
-/
structure TaskStateSegment where
  ist : Nat → Nat

/-- `TaskStateSegment::new()`. -/
def tssNew : TaskStateSegment := ⟨fun _ => 0⟩

/-- The TSS initialiser from `src/gdt.rs`: store
`VirtAddr::from_ptr(&STACK) + STACK_SIZE` — the top of the statically
reserved `STACK` byte array, whose placement `stackBase` the linker
chooses — into `interrupt_stack_table[DOUBLE_FAULT_IST_INDEX]`. -/
def tssInit (stackBase : Nat) : TaskStateSegment :=
  ⟨Function.update tssNew.ist DOUBLE_FAULT_IST_INDEX (stackBase + GDT_STACK_SIZE)⟩

/-! ## Heap free-list allocator (`src/heap/list.rs`) -/

/-- `mem::size_of::<ListNode>()` on the x86_64 target: a `usize` plus a
niche-optimised `Option<&'static mut ListNode>`, 8 + 8 bytes. -/
def NODE_SIZE : Nat := 16

/-- `mem::align_of::<ListNode>()` on the x86_64 target. -/
def NODE_ALIGN : Nat := 8

/-- `align_up(addr, align)` from `src/heap/mod.rs`, via
`<*const u8>::align_offset`: add `(align - addr % align) % align`. -/
def alignUp (addr align : Nat) : Nat := addr + (align - addr % align) % align

/-- A free region of the heap list: the `ListNode`'s `start_addr()` and
`size`.  The list order is the `next`-chain order starting at the head
sentinel. -/
structure Region where
  addr : Nat
  size : Nat
  deriving DecidableEq, Repr

/-- `ListNode::end_addr`. -/
def Region.endAddr (r : Region) : Nat := r.addr + r.size

/-- `core::alloc::Layout` (size and alignment; a valid layout has a
power-of-two alignment). -/
structure Layout where
  size : Nat
  align : Nat
  deriving DecidableEq, Repr

/-- `Allocator::size_align(layout)`: align the layout to the `ListNode`
alignment (`align_to(8).pad_to_align()`) and pad its size to at least
`NODE_SIZE`. -/
def sizeAlign (lay : Layout) : Nat × Nat :=
  let align := max lay.align NODE_ALIGN
  let size := alignUp lay.size align
  (max size NODE_SIZE, align)

/-- `Allocator::alloc_from_region(region, size, align)`: the allocation
start is the region start aligned up; `none` on `checked_add` overflow, if
the allocation does not fit, or if a non-zero trailing remainder cannot
host a `ListNode`. -/
def allocFromRegion (r : Region) (size align : Nat) : Option Nat :=
  let s := alignUp r.addr align
  if U64MOD ≤ s + size then none
  else
    if r.endAddr < s + size then none
    else
      let rem := r.endAddr - (s + size)
      if 0 < rem ∧ rem < NODE_SIZE then none else some s

/-- `Allocator::find_free_mem_region`: first-fit traversal; on success the
chosen region is spliced out and the remaining list is returned alongside
the region and allocation start. -/
def findFreeRegion : List Region → Nat → Nat → Option (Region × Nat × List Region)
  | [], _, _ => none
  | r :: rest, size, align =>
      match allocFromRegion r size align with
      | some s => some (r, s, rest)
      | none =>
          match findFreeRegion rest size align with
          | none => none
          | some (r', s', rest') => some (r', s', r :: rest')

/-- `Allocator::add_free_mem_region(addr, size)`: assert the address is
`ListNode`-aligned and the size can host a `ListNode`, then push the region
at the head of the list. -/
def addFreeMemRegion (l : List Region) (addr size : Nat) : Option (List Region) :=
  if alignUp addr NODE_ALIGN = addr ∧ NODE_SIZE ≤ size then some (⟨addr, size⟩ :: l)
  else none

/-- `GlobalAlloc::alloc for Locked<Allocator>`: adjust the layout, find a
region first-fit, re-check the end address (`checked_add`), and return any
trailing excess to the free list.  `some (none, _)` is the null-pointer
return; the outer `none` is a panic. -/
def heapAlloc (l : List Region) (lay : Layout) : Option (Option Nat × List Region) :=
  match findFreeRegion l (sizeAlign lay).1 (sizeAlign lay).2 with
  | none => some (none, l)
  | some (r, s, rest) =>
      if U64MOD ≤ s + (sizeAlign lay).1 then some (none, rest)
      else
        if 0 < r.endAddr - (s + (sizeAlign lay).1) then
          match addFreeMemRegion rest (s + (sizeAlign lay).1)
              (r.endAddr - (s + (sizeAlign lay).1)) with
          | none => none
          | some l2 => some (some s, l2)
        else some (some s, rest)

/-- `GlobalAlloc::dealloc for Locked<Allocator>`: adjust the layout the
same way and push the block at the head of the free list. -/
def heapDealloc (l : List Region) (p : Nat) (lay : Layout) : Option (List Region) :=
  addFreeMemRegion l p (sizeAlign lay).1

/-- The acceptance test exactly as the specification words it (for the
refinement statement of claim C3): align the region start up, accept iff
the allocation fits inside the region and the trailing remainder is 0 or at
least the header size. -/
def specAccepts (r : Region) (size align : Nat) : Prop :=
  alignUp r.addr align + size ≤ r.endAddr ∧
    (r.endAddr - (alignUp r.addr align + size) = 0 ∨
      NODE_SIZE ≤ r.endAddr - (alignUp r.addr align + size))

instance (r : Region) (size align : Nat) : Decidable (specAccepts r size align) := by
  unfold specAccepts; infer_instance

/-! ## VGA text writer (`src/vga_buffer.rs`) -/

/-- `ScreenChar`: ASCII byte plus colour (attribute) byte. -/
structure ScreenChar where
  ascii : Nat
  color : Nat
  deriving DecidableEq, Repr

/-- `BUFFER_SIZE_X` (80 columns). -/
def BUFFER_SIZE_X : Nat := 80

/-- `BUFFER_SIZE_Y` (25 rows). -/
def BUFFER_SIZE_Y : Nat := 25

/-- `Writer`: cursor column in the bottom row, current colour code, and the
VGA buffer (row ↦ column ↦ cell). -/
structure Writer where
  columnPos : Nat
  colorCode : Nat
  buffer : Nat → Nat → ScreenChar

/-- `Writer::clear_row`: blank out one row and reset the column cursor. -/
def writerClearRow (w : Writer) (row : Nat) : Writer :=
  { w with
    buffer := fun r c =>
      if r = row ∧ c < BUFFER_SIZE_X then ⟨32, w.colorCode⟩ else w.buffer r c
    columnPos := 0 }

/-- `Writer::newline`: shift every row up by one (row 0 is lost), then
clear the bottom row. -/
def writerNewline (w : Writer) : Writer :=
  let shifted : Writer :=
    { w with
      buffer := fun r c =>
        if r + 1 < BUFFER_SIZE_Y ∧ c < BUFFER_SIZE_X then w.buffer (r + 1) c
        else w.buffer r c }
  writerClearRow shifted (BUFFER_SIZE_Y - 1)

/-- `Writer::backspace`: blank the cell before the cursor (no-op in column
0). -/
def writerBackspace (w : Writer) : Writer :=
  if w.columnPos = 0 then w
  else
    let col := w.columnPos - 1
    { w with
      buffer := fun r c =>
        if r = BUFFER_SIZE_Y - 1 ∧ c = col then ⟨32, w.colorCode⟩ else w.buffer r c
      columnPos := col }

/-- `Writer::write`: handle `\n`, `\r` and backspace; otherwise wrap at
column 80 and store the byte with the current colour code in the bottom
row. -/
def writerWrite (w : Writer) (b : Nat) : Writer :=
  if b = 10 then writerNewline w
  else if b = 13 then { w with columnPos := 0 }
  else if b = 8 then writerBackspace w
  else
    let w := if BUFFER_SIZE_X ≤ w.columnPos then writerNewline w else w
    let col := w.columnPos
    { w with
      buffer := fun r c =>
        if r = BUFFER_SIZE_Y - 1 ∧ c = col then ⟨b, w.colorCode⟩ else w.buffer r c
      columnPos := col + 1 }

/-- `Writer::write_string` over the bytes of the string: printable ASCII,
`\n`, `\r` and backspace go to `write`; a tab becomes four spaces (the
recursive `write_string("    ")` call expanded — all four bytes are
printable); `0x7f` becomes the five printable bytes of `"<DEL>"`; every
other byte is written as `0x7e`. -/
def writerWriteString (w : Writer) : List Nat → Writer
  | [] => w
  | b :: rest =>
      let w' :=
        if (0x20 ≤ b ∧ b ≤ 0x7e) ∨ b = 10 ∨ b = 13 ∨ b = 8 then writerWrite w b
        else if b = 9 then
          writerWrite (writerWrite (writerWrite (writerWrite w 32) 32) 32) 32
        else if b = 0x7f then
          writerWrite (writerWrite (writerWrite (writerWrite (writerWrite w 60) 68) 69) 76) 62
        else writerWrite w 0x7e
      writerWriteString w' rest

/-- `println!(s)` for a plain string: `_print` formats `"{s}\n"`, so the
writer receives the bytes of `s` followed by a newline. -/
def printlnVga (w : Writer) (s : List Nat) : Writer :=
  writerWriteString w (s ++ [10])

/-! ## Keyboard scancode stream (`src/task/keyboard.rs`) -/

/-- `Poll<Option<u8>>`, the return type of `poll_next`. -/
inductive Poll where
  | ready : Option Nat → Poll
  | pending : Poll
  deriving DecidableEq, Repr

/-- The scancode-stream state: the `SCANCODE_QUEUE` contents (head =
oldest) and the `WAKER` slot. -/
structure ScancodeState where
  queue : List Nat
  waker : Option Nat
  deriving DecidableEq, Repr

/-- `Stream::poll_next for ScancodeStream` (queue initialised).  The code
pops, and on an empty queue registers the caller's waker and pops once
more to close the race with the interrupt handler; `ins` are the scancodes
the interrupt handler pushes between the first and the second pop (empty
when no interrupt intervenes). -/
def pollNext (st : ScancodeState) (cx : Nat) (ins : List Nat) : Poll × ScancodeState :=
  match st.queue with
  | s :: rest => (Poll.ready (some s), { st with queue := rest })
  | [] =>
      match ins with
      | s :: rest => (Poll.ready (some s), { queue := rest, waker := none })
      | [] => (Poll.pending, { queue := [], waker := some cx })

/-! ## Async executor (`src/task/executor.rs`)

Task futures are opaque to the executor; only the key structure of
`tasks`/`waker_cache` (`BTreeMap`s, represented by their key lists) and the
`task_queue` matter to the claim.  A poll outcome (`Poll::Ready` or
`Poll::Pending`) and the task ids its wakers push into the queue during the
poll are inputs of a step. -/

/-- Executor state: key list of `tasks`, the `task_queue` (head = next to
pop) and the key list of `waker_cache`. -/
structure Executor where
  tasks : List Nat
  taskQueue : List Nat
  wakerCache : List Nat
  deriving DecidableEq, Repr

/-- `Executor::new()`. -/
def executorNew : Executor := ⟨[], [], []⟩

/-- `Executor::spawn`: insert into `tasks` (panic on duplicate id), then
push onto the queue (capacity 100, panic when full). -/
def executorSpawn (ex : Executor) (id : Nat) : Option Executor :=
  if id ∈ ex.tasks then none
  else if 100 ≤ ex.taskQueue.length then none
  else some ⟨id :: ex.tasks, ex.taskQueue ++ [id], ex.wakerCache⟩

/-- One iteration of the `Executor::run_ready` loop: pop a task id; skip it
if it is no longer in `tasks`; otherwise get-or-create its cached waker and
poll it — `ready` is the poll outcome, `pushed` the ids enqueued by wakers
during the poll.  On `Ready` the task and its waker are removed. -/
def runReadyStep (ex : Executor) (ready : Bool) (pushed : List Nat) : Executor :=
  match ex.taskQueue with
  | [] => ex
  | id :: rest =>
      if id ∈ ex.tasks then
        let wakers := if id ∈ ex.wakerCache then ex.wakerCache else id :: ex.wakerCache
        if ready then
          { tasks := ex.tasks.erase id
            taskQueue := rest ++ pushed
            wakerCache := wakers.erase id }
        else { ex with taskQueue := rest ++ pushed, wakerCache := wakers }
      else { ex with taskQueue := rest }

/-- A prefix of the `run_ready` drain loop, one `(outcome, pushed)` pair
per iteration. -/
def runReady (ex : Executor) : List (Bool × List Nat) → Executor
  | [] => ex
  | step :: rest => runReady (runReadyStep ex step.1 step.2) rest

/-- The C10 invariant: every id with a cached waker is a live task (and the
map key lists are duplicate-free, as `BTreeMap` key sets are). -/
def ExecInv (ex : Executor) : Prop :=
  (∀ id ∈ ex.wakerCache, id ∈ ex.tasks) ∧ ex.tasks.Nodup ∧ ex.wakerCache.Nodup

instance (ex : Executor) : Decidable (ExecInv ex) := by
  unfold ExecInv; infer_instance

/-- The shape invariant of the page-table graph maintained by the kernel,
expressed through a level assignment `lvl` for physical frames: the active
P4 table has level 4; a present entry of a level-`k ≥ 1` table points
below the allocation cursor, at level `k - 1`, and is not a huge page
(this kernel never creates huge mappings); and present entries of level
`≥ 1` tables have pairwise distinct targets.  Data frames (level 0) carry
no constraint: their contents are arbitrary. -/
def GoodTables (st : Mapper) (lvl : Nat → Nat) : Prop :=
  lvl st.p4 = 4 ∧
    (∀ tf j, tf < st.next → 1 ≤ lvl tf → (st.mem tf j).flags.present = true →
      (st.mem tf j).frame < st.next ∧ lvl (st.mem tf j).frame = lvl tf - 1 ∧
        (st.mem tf j).flags.huge = false) ∧
    ∀ tf j tf' j', tf < st.next → tf' < st.next → 1 ≤ lvl tf → 1 ≤ lvl tf' →
      (st.mem tf j).flags.present = true → (st.mem tf' j').flags.present = true →
      (st.mem tf j).frame = (st.mem tf' j').frame → tf = tf' ∧ j = j'

/-- The observable effect of a successful `map(page, WRITABLE, allocator)`
on a page: a complete walk to an L1 entry holding
`frame | WRITABLE | PRESENT`, with all walk frames below the allocation
cursor. -/
def PageMapped (st : Mapper) (q : Nat) : Prop :=
  ∃ f3 f2 f1 fq, WalkPath st q f3 f2 f1 ∧
    f3 < st.next ∧ f2 < st.next ∧ f1 < st.next ∧ fq < st.next ∧
    st.mem f1 (p1Index q) = Entry.set fq (EntryFlags.WRITABLE.union EntryFlags.PRESENT)

/-- The concrete mapper state produced by mapping pages 11 and 12 writable
over the empty mapper, as `alloc_stack(2)` does on the range `10..30`;
used by the concrete C6 instance. -/
def c6State : Mapper :=
  (mapPages emptyMapper (pageRangeInclusive 11 12)).getD emptyMapper

/-- The concrete mapper state produced by mapping page 5 to frame 7
writable over the empty mapper; used by the concrete C2 instance. -/
def c2State : Mapper :=
  (mapTo emptyMapper 5 7 EntryFlags.WRITABLE).getD emptyMapper

/-! ### Frame-allocator lemmas -/

theorem minByStartAux_mem {l : List MemoryArea} {a : MemoryArea} :
    ∀ acc, minByStartAux acc l = some a → a ∈ l ∨ acc = some a := by
  induction l with
  | nil => intro acc h; exact Or.inr h
  | cons x xs ih =>
      intro acc h
      match acc with
      | none =>
          have h' : minByStartAux (some x) xs = some a := h
          rcases ih _ h' with h'' | h''
          · exact Or.inl (List.mem_cons_of_mem _ h'')
          · cases h''; exact Or.inl (List.mem_cons_self _ _)
      | some b =>
          have h' : minByStartAux (if x.start ≤ b.start then some x else some b) xs = some a := h
          by_cases hc : x.start ≤ b.start
          · rw [if_pos hc] at h'
            rcases ih _ h' with h'' | h''
            · exact Or.inl (List.mem_cons_of_mem _ h'')
            · cases h''; exact Or.inl (List.mem_cons_self _ _)
          · rw [if_neg hc] at h'
            rcases ih _ h' with h'' | h''
            · exact Or.inl (List.mem_cons_of_mem _ h'')
            · exact Or.inr h''

theorem minByStart_mem {l : List MemoryArea} {a : MemoryArea}
    (h : minByStart l = some a) : a ∈ l := by
  rcases minByStartAux_mem none h with h' | h'
  · exact h'
  · cases h'

theorem pickNextArea_areas (st : AreaFrameAllocator) :
    (pickNextArea st).areas = st.areas := by
  unfold pickNextArea
  split <;> rfl

theorem pickNextArea_fixed (st : AreaFrameAllocator) :
    (pickNextArea st).kernelStart = st.kernelStart ∧
      (pickNextArea st).kernelEnd = st.kernelEnd ∧
      (pickNextArea st).mbiStart = st.mbiStart ∧
      (pickNextArea st).mbiEnd = st.mbiEnd := by
  unfold pickNextArea
  split <;> exact ⟨rfl, rfl, rfl, rfl⟩

theorem pickNextArea_cursor_le (st : AreaFrameAllocator) :
    st.nextFreeFrame ≤ (pickNextArea st).nextFreeFrame := by
  unfold pickNextArea
  split
  · simp only
    split
    · exact Nat.le_of_lt (by assumption)
    · exact Nat.le_refl _
  · exact Nat.le_refl _

theorem pickNextArea_wf (st : AreaFrameAllocator) : AfaWF (pickNextArea st) := by
  unfold AfaWF pickNextArea
  split
  case h_1 area harea =>
      intro a ha
      dsimp only at ha ⊢
      obtain rfl : area = a := Option.some.inj ha
      constructor
      · exact (List.mem_filter.mp (minByStart_mem harea)).1
      · split
        · exact Nat.le_refl _
        · exact Nat.le_of_not_lt (by assumption)
  case h_2 =>
      intro a ha
      dsimp only at ha
      cases ha

theorem allocateFrame_invariants (fuel : Nat) (st : AreaFrameAllocator) :
    (allocateFrame fuel st).2.areas = st.areas ∧
      (allocateFrame fuel st).2.kernelStart = st.kernelStart ∧
      (allocateFrame fuel st).2.kernelEnd = st.kernelEnd ∧
      (allocateFrame fuel st).2.mbiStart = st.mbiStart ∧
      (allocateFrame fuel st).2.mbiEnd = st.mbiEnd ∧
      st.nextFreeFrame ≤ (allocateFrame fuel st).2.nextFreeFrame := by
  induction fuel generalizing st with
  | zero => exact ⟨rfl, rfl, rfl, rfl, rfl, Nat.le_refl _⟩
  | succ n ih =>
      rw [allocateFrame]
      split
      case h_1 => exact ⟨rfl, rfl, rfl, rfl, rfl, Nat.le_refl _⟩
      case h_2 area harea =>
          dsimp only
          split
          · obtain ⟨h1, h2, h3, h4, h5, h6⟩ := ih (pickNextArea st)
            obtain ⟨k1, k2, k3, k4⟩ := pickNextArea_fixed st
            exact ⟨h1.trans (pickNextArea_areas st), h2.trans k1, h3.trans k2, h4.trans k3,
              h5.trans k4, (pickNextArea_cursor_le st).trans h6⟩
          · split
            · obtain ⟨h1, h2, h3, h4, h5, h6⟩ := ih { st with nextFreeFrame := st.kernelEnd + 1 }
              refine ⟨h1, h2, h3, h4, h5, ?_⟩
              refine Nat.le_trans ?_ h6
              have : st.nextFreeFrame ≤ st.kernelEnd := by
                rename_i hc
                exact hc.2
              exact Nat.le_trans this (Nat.le_succ _)
            · split
              · obtain ⟨h1, h2, h3, h4, h5, h6⟩ := ih { st with nextFreeFrame := st.mbiEnd + 1 }
                refine ⟨h1, h2, h3, h4, h5, ?_⟩
                refine Nat.le_trans ?_ h6
                have : st.nextFreeFrame ≤ st.mbiEnd := by
                  rename_i hc
                  exact hc.2
                exact Nat.le_trans this (Nat.le_succ _)
              · exact ⟨rfl, rfl, rfl, rfl, rfl, Nat.le_succ _⟩

theorem allocateFrame_wf (fuel : Nat) (st : AreaFrameAllocator) (hwf : AfaWF st) :
    AfaWF (allocateFrame fuel st).2 := by
  induction fuel generalizing st with
  | zero => exact hwf
  | succ n ih =>
      rw [allocateFrame]
      split
      case h_1 => exact hwf
      case h_2 area harea =>
          dsimp only
          split
          · exact ih _ (pickNextArea_wf st)
          · split
            · refine ih _ ?_
              intro a ha
              simp only at ha
              obtain ⟨hmem, hle⟩ := hwf a (harea.symm ▸ ha)
              refine ⟨hmem, ?_⟩
              rename_i hc
              have hfa : a = area := by
                rw [harea] at ha
                exact (Option.some.inj ha).symm
              subst hfa
              exact Nat.le_trans (Nat.le_trans hle hc.2) (Nat.le_succ _)
            · split
              · refine ih _ ?_
                intro a ha
                simp only at ha
                obtain ⟨hmem, hle⟩ := hwf a (harea.symm ▸ ha)
                refine ⟨hmem, ?_⟩
                rename_i hc
                have hfa : a = area := by
                  rw [harea] at ha
                  exact (Option.some.inj ha).symm
                subst hfa
                exact Nat.le_trans (Nat.le_trans hle hc.2) (Nat.le_succ _)
              · intro a ha
                simp only at ha
                obtain ⟨hmem, hle⟩ := hwf a ha
                exact ⟨hmem, Nat.le_trans hle (Nat.le_succ _)⟩

theorem allocateFrame_ret (fuel : Nat) (st : AreaFrameAllocator) {f : Nat}
    (h : (allocateFrame fuel st).1 = some f) :
    st.nextFreeFrame ≤ f ∧ (allocateFrame fuel st).2.nextFreeFrame = f + 1 := by
  induction fuel generalizing st with
  | zero => cases h
  | succ n ih =>
      rw [allocateFrame] at h ⊢
      split at h
      case h_1 => cases h
      case h_2 area harea =>
          dsimp only at h ⊢
          split at h
          · rename_i hc
            rw [if_pos hc]
            obtain ⟨h1, h2⟩ := ih _ h
            exact ⟨Nat.le_trans (pickNextArea_cursor_le st) h1, h2⟩
          · rename_i hc1
            rw [if_neg hc1]
            split at h
            · rename_i hc
              rw [if_pos hc]
              obtain ⟨h1, h2⟩ := ih _ h
              exact ⟨Nat.le_trans (Nat.le_trans hc.2 (Nat.le_succ _)) h1, h2⟩
            · rename_i hc2
              rw [if_neg hc2]
              split at h
              · rename_i hc
                rw [if_pos hc]
                obtain ⟨h1, h2⟩ := ih _ h
                exact ⟨Nat.le_trans (Nat.le_trans hc.2 (Nat.le_succ _)) h1, h2⟩
              · rename_i hc3
                rw [if_neg hc3]
                cases h
                exact ⟨Nat.le_refl _, rfl⟩

theorem allocateFrame_some_ranges (fuel : Nat) (st : AreaFrameAllocator) {f : Nat}
    (hwf : AfaWF st) (h : (allocateFrame fuel st).1 = some f) :
    ¬(st.kernelStart ≤ f ∧ f ≤ st.kernelEnd) ∧
      ¬(st.mbiStart ≤ f ∧ f ≤ st.mbiEnd) ∧
      ∃ a, a ∈ st.areas ∧ areaStartFrame a ≤ f ∧ f ≤ areaLastFrame a := by
  induction fuel generalizing st with
  | zero => cases h
  | succ n ih =>
      rw [allocateFrame] at h
      split at h
      case h_1 => cases h
      case h_2 area harea =>
          dsimp only at h
          split at h
          · obtain ⟨c1, c2, c3⟩ := ih _ (pickNextArea_wf st) h
            obtain ⟨k1, k2, k3, k4⟩ := pickNextArea_fixed st
            rw [k1, k2] at c1
            rw [k3, k4] at c2
            rw [pickNextArea_areas st] at c3
            exact ⟨c1, c2, c3⟩
          · split at h
            · have hwf' : AfaWF { st with nextFreeFrame := st.kernelEnd + 1 } := by
                intro a ha
                simp only at ha
                obtain ⟨hmem, hle⟩ := hwf a (harea.symm ▸ ha)
                refine ⟨hmem, ?_⟩
                rename_i hc
                have hfa : a = area := by
                  rw [harea] at ha
                  exact (Option.some.inj ha).symm
                subst hfa
                exact Nat.le_trans (Nat.le_trans hle hc.2) (Nat.le_succ _)
              obtain ⟨c1, c2, c3⟩ := ih _ hwf' h
              exact ⟨c1, c2, c3⟩
            · split at h
              · have hwf' : AfaWF { st with nextFreeFrame := st.mbiEnd + 1 } := by
                  intro a ha
                  simp only at ha
                  obtain ⟨hmem, hle⟩ := hwf a (harea.symm ▸ ha)
                  refine ⟨hmem, ?_⟩
                  rename_i hc
                  have hfa : a = area := by
                    rw [harea] at ha
                    exact (Option.some.inj ha).symm
                  subst hfa
                  exact Nat.le_trans (Nat.le_trans hle hc.2) (Nat.le_succ _)
                obtain ⟨c1, c2, c3⟩ := ih _ hwf' h
                exact ⟨c1, c2, c3⟩
              · cases h
                rename_i hc1 hc2 hc3
                obtain ⟨hmem, hle⟩ := hwf area harea
                exact ⟨hc2, hc3, area, hmem, hle, Nat.le_of_not_lt hc1⟩

theorem allocRun_invariants (fuels : List Nat) (st : AreaFrameAllocator) :
    (allocRun fuels st).areas = st.areas ∧
      (allocRun fuels st).kernelStart = st.kernelStart ∧
      (allocRun fuels st).kernelEnd = st.kernelEnd ∧
      (allocRun fuels st).mbiStart = st.mbiStart ∧
      (allocRun fuels st).mbiEnd = st.mbiEnd ∧
      st.nextFreeFrame ≤ (allocRun fuels st).nextFreeFrame := by
  induction fuels generalizing st with
  | nil => exact ⟨rfl, rfl, rfl, rfl, rfl, Nat.le_refl _⟩
  | cons fuel rest ih =>
      obtain ⟨h1, h2, h3, h4, h5, h6⟩ := ih (allocateFrame fuel st).2
      obtain ⟨k1, k2, k3, k4, k5, k6⟩ := allocateFrame_invariants fuel st
      exact ⟨h1.trans k1, h2.trans k2, h3.trans k3, h4.trans k4, h5.trans k5, k6.trans h6⟩

theorem allocRun_wf (fuels : List Nat) (st : AreaFrameAllocator) (hwf : AfaWF st) :
    AfaWF (allocRun fuels st) := by
  induction fuels generalizing st with
  | nil => exact hwf
  | cons fuel rest ih => exact ih _ (allocateFrame_wf fuel st hwf)

/-- **C1.** Every frame returned by `AreaFrameAllocator::allocate_frame` — on
any call after construction by `AreaFrameAllocator::new` — lies outside the
kernel-image frame range and outside the boot-info frame range captured at
construction, and lies inside some memory area of the loader-supplied
memory map (between that area's first and last frame). -/
theorem allocate_frame_respects_reserved_ranges
    (ks ke ms me : Nat) (areas : List MemoryArea) (fuels : List Nat) (fuel : Nat) (f : Nat)
    (h : (allocateFrame fuel (allocRun fuels (afaNew ks ke ms me areas))).1 = some f) :
    ¬(frameContaining ks ≤ f ∧ f ≤ frameContaining ke) ∧
      ¬(frameContaining ms ≤ f ∧ f ≤ frameContaining me) ∧
      ∃ a, a ∈ areas ∧ areaStartFrame a ≤ f ∧ f ≤ areaLastFrame a := by
  have hwf0 : AfaWF (afaNew ks ke ms me areas) := pickNextArea_wf _
  have hwf := allocRun_wf fuels _ hwf0
  obtain ⟨c1, c2, c3⟩ := allocateFrame_some_ranges fuel _ hwf h
  obtain ⟨r1, r2, r3, r4, r5, _⟩ := allocRun_invariants fuels (afaNew ks ke ms me areas)
  obtain ⟨n1, n2, n3, n4⟩ := pickNextArea_fixed
    { nextFreeFrame := 0
      currentArea := none
      areas := areas
      kernelStart := frameContaining ks
      kernelEnd := frameContaining ke
      mbiStart := frameContaining ms
      mbiEnd := frameContaining me }
  have hareas : (allocRun fuels (afaNew ks ke ms me areas)).areas = areas := by
    rw [r1]; exact pickNextArea_areas _
  rw [r2, r3] at c1
  rw [r4, r5] at c2
  rw [hareas] at c3
  unfold afaNew at c1 c2
  rw [n1, n2] at c1
  rw [n3, n4] at c2
  exact ⟨c1, c2, c3⟩

/-- **C1 witness**: a concrete allocator with one usable area, kernel in
frames 0–1 and boot info in frame 2; the first allocation returns frame 3,
outside both reserved ranges and inside the area. -/
theorem allocate_frame_respects_reserved_ranges_witness :
    (allocateFrame 10 (allocRun [] (afaNew 0 0x1fff 0x2000 0x2fff [⟨0, 0x5000⟩]))).1 = some 3 ∧
      (¬(frameContaining 0 ≤ 3 ∧ 3 ≤ frameContaining 0x1fff) ∧
        ¬(frameContaining 0x2000 ≤ 3 ∧ 3 ≤ frameContaining 0x2fff) ∧
        ∃ a, a ∈ [(⟨0, 0x5000⟩ : MemoryArea)] ∧ areaStartFrame a ≤ 3 ∧ 3 ≤ areaLastFrame a) := by
  refine ⟨by decide, allocate_frame_respects_reserved_ranges 0 0x1fff 0x2000 0x2fff _ [] 10 3 (by decide)⟩

/-- **C5.** The frame allocator never hands the same frame out twice: if one
`allocate_frame` call returns `Some f₁` and a later call — after any further
sequence of calls — returns `Some f₂`, then `f₁ ≠ f₂` (the cursor is
monotonically non-decreasing and a returned frame is strictly below the
cursor value its call leaves behind). -/
theorem allocate_frame_no_double_allocation
    (fuel1 fuel2 : Nat) (fuels : List Nat) (st : AreaFrameAllocator) (f1 f2 : Nat)
    (h1 : (allocateFrame fuel1 st).1 = some f1)
    (h2 : (allocateFrame fuel2 (allocRun fuels (allocateFrame fuel1 st).2)).1 = some f2) :
    f1 ≠ f2 := by
  obtain ⟨_, hcur1⟩ := allocateFrame_ret fuel1 st h1
  obtain ⟨hle2, _⟩ := allocateFrame_ret fuel2 _ h2
  obtain ⟨_, _, _, _, _, hmono⟩ := allocRun_invariants fuels (allocateFrame fuel1 st).2
  have : f1 < f2 := by
    have h3 : f1 + 1 ≤ (allocRun fuels (allocateFrame fuel1 st).2).nextFreeFrame := by
      rw [← hcur1]; exact hmono
    exact Nat.lt_of_lt_of_le (Nat.lt_succ_self f1) (Nat.le_trans h3 hle2)
  exact Nat.ne_of_lt this

/-- **C5 witness**: two consecutive allocations on the concrete allocator of
the C1 witness return frames 3 and 4, which are distinct. -/
theorem allocate_frame_no_double_allocation_witness :
    (allocateFrame 10 (afaNew 0 0x1fff 0x2000 0x2fff [⟨0, 0x5000⟩])).1 = some 3 ∧
      (allocateFrame 10 (allocRun [] (allocateFrame 10
        (afaNew 0 0x1fff 0x2000 0x2fff [⟨0, 0x5000⟩])).2)).1 = some 4 ∧
      (3 : Nat) ≠ 4 := by
  refine ⟨by decide, by decide,
    allocate_frame_no_double_allocation 10 10 [] (afaNew 0 0x1fff 0x2000 0x2fff [⟨0, 0x5000⟩])
      3 4 (by decide) (by decide)⟩

/-! ### Keyboard-stream theorems (C9) -/

/-- **C9.** `ScancodeStream::poll_next` pops the oldest scancode and
returns `Ready(Some _)` whenever the queue is non-empty; when the first pop
finds the queue empty it registers the caller's waker and pops once more —
returning `Ready(Some s)` with the waker slot cleared if a scancode arrived
in between, and `Pending` with the waker registered otherwise; it never
returns `Ready(None)`. -/
theorem scancode_poll_next_spec (st : ScancodeState) (cx : Nat) (ins : List Nat) :
    (∀ s rest, st.queue = s :: rest →
        pollNext st cx ins = (Poll.ready (some s), { st with queue := rest })) ∧
      (∀ s rest, st.queue = [] → ins = s :: rest →
        pollNext st cx ins = (Poll.ready (some s), ⟨rest, none⟩)) ∧
      (st.queue = [] → ins = [] →
        pollNext st cx ins = (Poll.pending, ⟨[], some cx⟩)) ∧
      (pollNext st cx ins).1 ≠ Poll.ready none := by
  refine ⟨?_, ?_, ?_, ?_⟩
  · intro s rest hq
    unfold pollNext
    rw [hq]
  · intro s rest hq hins
    unfold pollNext
    rw [hq, hins]
  · intro hq hins
    unfold pollNext
    rw [hq, hins]
  · unfold pollNext
    rcases hq : st.queue with _ | ⟨s, rest⟩
    · rcases hins : ins with _ | ⟨s', rest'⟩
      · simp
      · simp
    · simp

/-- **C9 witness**: the three behaviours at concrete queue states. -/
theorem scancode_poll_next_spec_witness :
    pollNext ⟨[7, 8], none⟩ 2 [] = (Poll.ready (some 7), ⟨[8], none⟩) ∧
      pollNext ⟨[], some 1⟩ 2 [9] = (Poll.ready (some 9), ⟨[], none⟩) ∧
      pollNext ⟨[], none⟩ 2 [] = (Poll.pending, ⟨[], some 2⟩) :=
  ⟨(scancode_poll_next_spec ⟨[7, 8], none⟩ 2 []).1 7 [8] rfl,
    (scancode_poll_next_spec ⟨[], some 1⟩ 2 [9]).2.1 9 [] rfl rfl,
    (scancode_poll_next_spec ⟨[], none⟩ 2 []).2.2.1 rfl rfl⟩

/-! ### Executor theorems (C10) -/

theorem runReadyStep_inv (ex : Executor) (b : Bool) (pushed : List Nat)
    (h : ExecInv ex) : ExecInv (runReadyStep ex b pushed) := by
  obtain ⟨hsub, hnt, hnw⟩ := h
  unfold runReadyStep
  rcases hq : ex.taskQueue with _ | ⟨id, rest⟩
  · exact ⟨hsub, hnt, hnw⟩
  · dsimp only
    by_cases hin : id ∈ ex.tasks
    · rw [if_pos hin]
      have hw' : ∀ x ∈ (if id ∈ ex.wakerCache then ex.wakerCache else id :: ex.wakerCache),
          x ∈ ex.tasks := by
        split
        · exact hsub
        · intro x hx
          rcases List.mem_cons.mp hx with rfl | hx
          · exact hin
          · exact hsub x hx
      have hnw' : (if id ∈ ex.wakerCache then ex.wakerCache else id :: ex.wakerCache).Nodup := by
        split
        · exact hnw
        · exact List.nodup_cons.mpr ⟨by assumption, hnw⟩
      cases b
      · exact ⟨hw', hnt, hnw'⟩
      · refine ⟨?_, hnt.erase id, hnw'.erase id⟩
        intro x hx
        have hxw := List.mem_of_mem_erase hx
        have hxne : x ≠ id := (List.Nodup.mem_erase_iff hnw').mp hx |>.1
        exact (List.mem_erase_of_ne hxne).mpr (hw' x hxw)
    · rw [if_neg hin]
      exact ⟨hsub, hnt, hnw⟩

/-- **C10.** Executor invariant: every task id with a cached waker is a
live task.  It holds for `Executor::new`, is preserved by `spawn` (which
touches only `tasks` and the queue) and by every iteration of `run_ready`
(a waker is created only for a task found in `tasks`; on `Poll::Ready` the
id is removed from both maps). -/
theorem executor_waker_cache_invariant :
    ExecInv executorNew ∧
      (∀ ex id ex', ExecInv ex → executorSpawn ex id = some ex' → ExecInv ex') ∧
      (∀ ex steps, ExecInv ex → ExecInv (runReady ex steps)) := by
  refine ⟨by decide, ?_, ?_⟩
  · intro ex id ex' h hspawn
    obtain ⟨hsub, hnt, hnw⟩ := h
    unfold executorSpawn at hspawn
    split at hspawn
    · cases hspawn
    · split at hspawn
      · cases hspawn
      · cases hspawn
        refine ⟨?_, List.nodup_cons.mpr ⟨by assumption, hnt⟩, hnw⟩
        intro x hx
        exact List.mem_cons_of_mem _ (hsub x hx)
  · intro ex steps h
    induction steps generalizing ex with
    | nil => exact h
    | cons step rest ih => exact ih _ (runReadyStep_inv ex step.1 step.2 h)

/-- **C10 witness**: the invariant transported through a concrete spawn and
a concrete `run_ready` iteration. -/
theorem executor_waker_cache_invariant_witness :
    ExecInv (runReady ⟨[4], [4], []⟩ [(false, [4]), (true, [])]) ∧
      ExecInv ⟨[4], [4], []⟩ ∧ executorSpawn executorNew 4 = some ⟨[4], [4], []⟩ :=
  ⟨executor_waker_cache_invariant.2.2 ⟨[4], [4], []⟩ [(false, [4]), (true, [])] (by decide),
    executor_waker_cache_invariant.2.1 executorNew 4 ⟨[4], [4], []⟩ (by decide) (by decide),
    by decide⟩

/-! ### GDT / double-fault IST theorems (C8)

The spec claims the double-fault IST entry is the top of a guard-paged
`Stack` obtained from `StackAllocator::alloc_stack`.  In `src/gdt.rs` the
entry is instead the top of a statically reserved `static mut STACK:
[u8; 4096 * 5]` byte array; no stack-allocator call is involved, and every
stack the kernel's stack allocator can ever return lies in the virtual page
range fixed by `memory::init`, far above any linker-placed static. -/

theorem allocStack_nth_bounds {it : PageIter} {k v : Nat} {it' : PageIter}
    (h : it.nth k = (some v, it')) : it.start ≤ v ∧ v ≤ it.stop ∧ it'.stop = it.stop := by
  induction k generalizing it with
  | zero =>
      unfold PageIter.nth PageIter.nextPage at h
      split at h
      · cases h
        exact ⟨Nat.le_refl _, by assumption, rfl⟩
      · cases h
  | succ k ih =>
      unfold PageIter.nth at h
      rcases hnp : it.nextPage with ⟨v0, it0⟩
      rw [hnp] at h
      unfold PageIter.nextPage at hnp
      split at hnp
      · cases hnp
        simp only at h
        obtain ⟨h1, h2, h3⟩ := ih h
        exact ⟨Nat.le_trans (Nat.le_succ _) h1, h2, h3⟩
      · cases hnp
        simp only at h
        cases h

theorem allocStack_top_range {st : Mapper} {sa : PageIter} {n : Nat} {stk : Stack}
    {st' : Mapper} {sa' : PageIter}
    (h : allocStack st sa n = some (some stk, st', sa')) :
    (sa.start + 2) * PAGE_SIZE ≤ stk.top := by
  unfold allocStack at h
  split at h
  · simp at h
  · rcases h1 : sa.nextPage with ⟨g?, it1⟩
    rw [h1] at h
    simp only at h
    rcases h2 : it1.nextPage with ⟨s?, it2⟩
    rw [h2] at h
    simp only at h
    rcases h3 : (if n = 1 then (s?, it2) else it2.nth (n - 2)) with ⟨e?, it3⟩
    rw [h3] at h
    simp only at h
    rcases g? with _ | g
    · simp at h
    rcases s? with _ | s
    · simp at h
    rcases e? with _ | e
    · simp at h
    simp only at h
    rcases h4 : mapPages st (pageRangeInclusive s e) with _ | st2
    · rw [h4] at h
      simp at h
    · rw [h4] at h
      simp only at h
      split at h
      · simp only [Option.some.injEq, Prod.mk.injEq] at h
        obtain ⟨hstk, _, _⟩ := h
        have hs : s = sa.start + 1 := by
          unfold PageIter.nextPage at h1 h2
          split at h1
          · cases h1
            simp only at h2
            split at h2
            · cases h2; rfl
            · cases h2
          · cases h1
        have hse : sa.start + 2 ≤ e + 1 := by
          by_cases hn1 : n = 1
          · rw [if_pos hn1] at h3
            cases h3
            omega
          · rw [if_neg hn1] at h3
            obtain ⟨hb1, _, _⟩ := allocStack_nth_bounds h3
            have hit2 : it2.start = sa.start + 2 := by
              unfold PageIter.nextPage at h1 h2
              split at h1
              · cases h1
                simp only at h2
                split at h2
                · cases h2; rfl
                · cases h2
              · cases h1
            omega
        rw [← hstk]
        simp only
        calc (sa.start + 2) * PAGE_SIZE ≤ (e + 1) * PAGE_SIZE := Nat.mul_le_mul_right _ hse
          _ = e * PAGE_SIZE + PAGE_SIZE := by ring
      · simp at h

/-- **C8 counterexample.**  The claim — the address in
`TSS.interrupt_stack_table[DOUBLE_FAULT_IST_INDEX]` is the top of a Stack
returned by `StackAllocator::alloc_stack` — is false for the kernel's stack
allocator: its cursor never moves below the range start fixed by
`memory::init` (page `0x444444459`), so every returned stack top is at
least `0x44444445b000`, while the IST entry is the top of the static 20 KiB
`STACK` array (here placed at the concrete address `0x200000`, giving
`0x205000`). -/
theorem double_fault_ist_not_from_stack_allocator :
    ¬ ∃ (st : Mapper) (sa : PageIter) (n : Nat) (stk : Stack) (st' : Mapper) (sa' : PageIter),
        kernelStackRange.start ≤ sa.start ∧
        allocStack st sa n = some (some stk, st', sa') ∧
        stk.top = (tssInit 0x200000).ist DOUBLE_FAULT_IST_INDEX := by
  rintro ⟨st, sa, n, stk, st', sa', hstart, halloc, htop⟩
  have hbound := allocStack_top_range halloc
  have hist : (tssInit 0x200000).ist DOUBLE_FAULT_IST_INDEX = 0x205000 := by
    unfold tssInit tssNew DOUBLE_FAULT_IST_INDEX GDT_STACK_SIZE
    simp [Function.update]
  rw [htop, hist] at hbound
  have hks : kernelStackRange.start = 0x444444459 := by
    unfold kernelStackRange HEAP_END HEAP_START HEAP_SIZE PAGE_SIZE
    norm_num
  rw [hks] at hstart
  unfold PAGE_SIZE at hbound
  omega

/-- **C8 (amended).**  The double-fault handler is configured to run on a
dedicated IST stack, but that stack is the statically reserved
`static mut STACK: [u8; 4096 * 5]` array of `src/gdt.rs`, not a guard-paged
`Stack` from `StackAllocator::alloc_stack`:
`TSS.interrupt_stack_table[DOUBLE_FAULT_IST_INDEX]` holds the top
(`base + 4096 * 5`) of that array, and every other IST slot keeps its
zero-initialised value. -/
theorem double_fault_ist_is_static_stack_top (base : Nat) :
    (tssInit base).ist DOUBLE_FAULT_IST_INDEX = base + GDT_STACK_SIZE ∧
      ∀ i, i ≠ DOUBLE_FAULT_IST_INDEX → (tssInit base).ist i = tssNew.ist i := by
  constructor
  · unfold tssInit
    simp [Function.update]
  · intro i hi
    unfold tssInit
    simp [Function.update, hi]

/-- **C8 amended witness**: the concrete TSS at base `0x200000`. -/
theorem double_fault_ist_is_static_stack_top_witness :
    (tssInit 0x200000).ist DOUBLE_FAULT_IST_INDEX = 0x205000 ∧
      (tssInit 0x200000).ist 3 = 0 :=
  ⟨(double_fault_ist_is_static_stack_top 0x200000).1,
    (double_fault_ist_is_static_stack_top 0x200000).2 3 (by decide)⟩

/-! ### VGA writer theorems (C7)

`println!` appends a newline, and `Writer::write(b'\n')` scrolls the whole
buffer up one row before the call returns.  The printed characters are
written into row 24 while writing, but once the `println!` is complete they
sit in row 23 and row 24 is blank — exactly what the source's own
`vga_text_buffer_functionality` test checks (row `BUFFER_SIZE_Y - 2`). -/

theorem writerWriteString_cons (w : Writer) (b : Nat) (rest : List Nat) :
    writerWriteString w (b :: rest) =
      writerWriteString
        (if (0x20 ≤ b ∧ b ≤ 0x7e) ∨ b = 10 ∨ b = 13 ∨ b = 8 then writerWrite w b
         else if b = 9 then
           writerWrite (writerWrite (writerWrite (writerWrite w 32) 32) 32) 32
         else if b = 0x7f then
           writerWrite (writerWrite (writerWrite (writerWrite (writerWrite w 60) 68) 69) 76) 62
         else writerWrite w 0x7e) rest := rfl

theorem writerWriteString_append (s t : List Nat) : ∀ w : Writer,
    writerWriteString w (s ++ t) = writerWriteString (writerWriteString w s) t := by
  induction s with
  | nil => intro w; rfl
  | cons b rest ih =>
      intro w
      rw [List.cons_append, writerWriteString_cons, writerWriteString_cons, ih]

theorem writerWrite_printable (w : Writer) (b : Nat) (hb : 0x20 ≤ b ∧ b ≤ 0x7e)
    (hcol : w.columnPos < BUFFER_SIZE_X) :
    writerWrite w b =
      { columnPos := w.columnPos + 1
        colorCode := w.colorCode
        buffer := fun r c =>
          if r = BUFFER_SIZE_Y - 1 ∧ c = w.columnPos then ⟨b, w.colorCode⟩
          else w.buffer r c } := by
  unfold writerWrite
  rw [if_neg (by omega), if_neg (by omega), if_neg (by omega)]
  dsimp only
  rw [if_neg (by unfold BUFFER_SIZE_X at hcol ⊢; omega)]

theorem writeString_printable (s : List Nat) : ∀ w : Writer,
    w.columnPos + s.length ≤ BUFFER_SIZE_X →
    (∀ b ∈ s, 0x20 ≤ b ∧ b ≤ 0x7e) →
    (writerWriteString w s).columnPos = w.columnPos + s.length ∧
      (writerWriteString w s).colorCode = w.colorCode ∧
      (∀ i, i < s.length →
        (writerWriteString w s).buffer (BUFFER_SIZE_Y - 1) (w.columnPos + i)
          = ⟨s.getD i 0, w.colorCode⟩) ∧
      (∀ r c, ¬(r = BUFFER_SIZE_Y - 1 ∧ w.columnPos ≤ c) →
        (writerWriteString w s).buffer r c = w.buffer r c) := by
  induction s with
  | nil =>
      intro w _ _
      exact ⟨rfl, rfl, fun i hi => absurd hi (Nat.not_lt_zero i), fun r c _ => rfl⟩
  | cons b rest ih =>
      intro w hlen hp
      obtain ⟨hb1, hb2⟩ := hp b (List.mem_cons_self _ _)
      have hcol : w.columnPos < BUFFER_SIZE_X := by
        simp only [List.length_cons] at hlen
        omega
      have hstep : writerWriteString w (b :: rest) =
          writerWriteString
            { columnPos := w.columnPos + 1
              colorCode := w.colorCode
              buffer := fun r c =>
                if r = BUFFER_SIZE_Y - 1 ∧ c = w.columnPos then ⟨b, w.colorCode⟩
                else w.buffer r c } rest := by
        rw [writerWriteString_cons, if_pos (Or.inl ⟨hb1, hb2⟩),
          writerWrite_printable w b ⟨hb1, hb2⟩ hcol]
      rw [hstep]
      set w' : Writer :=
        { columnPos := w.columnPos + 1
          colorCode := w.colorCode
          buffer := fun r c =>
            if r = BUFFER_SIZE_Y - 1 ∧ c = w.columnPos then ⟨b, w.colorCode⟩
            else w.buffer r c } with hw'
      have hlen' : w'.columnPos + rest.length ≤ BUFFER_SIZE_X := by
        simp only [List.length_cons] at hlen
        simp only [hw']
        omega
      obtain ⟨ih1, ih2, ih3, ih4⟩ := ih w' hlen' (fun x hx => hp x (List.mem_cons_of_mem _ hx))
      refine ⟨?_, ?_, ?_, ?_⟩
      · rw [ih1]
        simp only [hw', List.length_cons]
        omega
      · rw [ih2]
      · intro i hi
        match i with
        | 0 =>
            have hpres : (writerWriteString w' rest).buffer (BUFFER_SIZE_Y - 1) (w.columnPos + 0)
                = w'.buffer (BUFFER_SIZE_Y - 1) (w.columnPos + 0) := by
              refine ih4 _ _ ?_
              simp only [hw']
              omega
            rw [hpres]
            simp [hw']
        | i + 1 =>
            have := ih3 i (by simpa using Nat.lt_of_succ_lt_succ hi)
            simp only [hw'] at this ⊢
            have harith : w.columnPos + 1 + i = w.columnPos + (i + 1) := by omega
            rw [harith] at this
            rw [this]
            rfl
      · intro r c hrc
        have h1 : (writerWriteString w' rest).buffer r c = w'.buffer r c := by
          refine ih4 r c ?_
          simp only [hw']
          omega
        rw [h1]
        simp only [hw']
        rw [if_neg (by omega)]

/-- **C7 counterexample.**  The claim as stated — after `println!` of an
N-character printable string the bytes occupy row 24, columns `0..N` — is
false at the concrete input `"AB"` printed by a freshly constructed writer:
once the `println!` completes, row 24, column 0 holds a blank (the trailing
newline scrolled the text up), not the byte `65`. -/
theorem println_row24_counterexample :
    (printlnVga ⟨0, 15, fun _ _ => ⟨32, 0⟩⟩ [65, 66]).buffer (BUFFER_SIZE_Y - 1) 0
        = ⟨32, 15⟩ ∧
      (printlnVga ⟨0, 15, fun _ _ => ⟨32, 0⟩⟩ [65, 66]).buffer (BUFFER_SIZE_Y - 1) 0
        ≠ ⟨65, 15⟩ := by
  constructor
  · decide
  · decide

/-- **C7 (amended).**  After a `println!` of an N-character printable-ASCII
string (N ≤ 80) from column 0, the ASCII bytes occupy row 23 — the second
row from the bottom, where the trailing newline scrolled them — in columns
`0..N`, each cell carrying the writer's current attribute byte, and the
bottom row 24 is blank in the writer's attribute. -/
theorem println_prints_to_row_23 (w : Writer) (s : List Nat)
    (h0 : w.columnPos = 0) (hlen : s.length ≤ BUFFER_SIZE_X)
    (hp : ∀ b ∈ s, 0x20 ≤ b ∧ b ≤ 0x7e) :
    (∀ i, i < s.length →
        (printlnVga w s).buffer (BUFFER_SIZE_Y - 2) i = ⟨s.getD i 0, w.colorCode⟩) ∧
      ∀ c, c < BUFFER_SIZE_X →
        (printlnVga w s).buffer (BUFFER_SIZE_Y - 1) c = ⟨32, w.colorCode⟩ := by
  unfold printlnVga
  rw [writerWriteString_append]
  set w1 := writerWriteString w s with hw1
  obtain ⟨hc1, hc2, hcell, _⟩ := writeString_printable s w (by omega) hp
  have hnl : writerWriteString w1 [10] = writerNewline w1 := by
    rw [writerWriteString_cons, if_pos (Or.inr (Or.inl rfl))]
    rfl
  rw [hnl]
  unfold writerNewline writerClearRow
  constructor
  · intro i hi
    dsimp only
    rw [if_neg (by unfold BUFFER_SIZE_Y; omega)]
    rw [if_pos ⟨by unfold BUFFER_SIZE_Y; omega, by unfold BUFFER_SIZE_X at hlen ⊢; omega⟩]
    have : BUFFER_SIZE_Y - 2 + 1 = BUFFER_SIZE_Y - 1 := by unfold BUFFER_SIZE_Y; omega
    rw [this]
    have := hcell i hi
    rw [h0] at this
    simpa using this
  · intro c hc
    dsimp only
    rw [if_pos ⟨rfl, hc⟩]
    rw [hc2]

/-- **C7 amended witness**: printing `"AB"` on a fresh writer leaves `A`
at row 23 column 0 and a blank at row 24 column 79. -/
theorem println_prints_to_row_23_witness :
    (printlnVga ⟨0, 15, fun _ _ => ⟨32, 0⟩⟩ [65, 66]).buffer (BUFFER_SIZE_Y - 2) 0
        = ⟨65, 15⟩ ∧
      (printlnVga ⟨0, 15, fun _ _ => ⟨32, 0⟩⟩ [65, 66]).buffer (BUFFER_SIZE_Y - 1) 79
        = ⟨32, 15⟩ :=
  ⟨(println_prints_to_row_23 ⟨0, 15, fun _ _ => ⟨32, 0⟩⟩ [65, 66] rfl (by decide)
      (by decide)).1 0 (by decide),
    (println_prints_to_row_23 ⟨0, 15, fun _ _ => ⟨32, 0⟩⟩ [65, 66] rfl (by decide)
      (by decide)).2 79 (by decide)⟩

/-! ### Heap free-list theorems (C3, C4) -/

theorem alignUp_mod_self (x a : Nat) (ha : 0 < a) : alignUp x a % a = 0 := by
  unfold alignUp
  rcases Nat.eq_zero_or_pos (x % a) with h | h
  · rw [h, Nat.sub_zero, Nat.mod_self, Nat.add_zero, h]
  · have hx : x % a < a := Nat.mod_lt _ ha
    have hlt : a - x % a < a := by omega
    rw [Nat.mod_eq_of_lt hlt, Nat.add_mod]
    rw [Nat.mod_eq_of_lt hlt]
    have : x % a + (a - x % a) = a := by omega
    rw [this, Nat.mod_self]

theorem alignUp_of_mod_eq_zero {x a : Nat} (h : x % a = 0) : alignUp x a = x := by
  unfold alignUp
  rw [h, Nat.sub_zero, Nat.mod_self, Nat.add_zero]

theorem alignUp_mod_eight {x a : Nat} (ha : 0 < a) (hdvd : 8 ∣ a) : alignUp x a % 8 = 0 := by
  have h1 : a ∣ alignUp x a := Nat.dvd_of_mod_eq_zero (alignUp_mod_self x a ha)
  have h2 : 8 ∣ alignUp x a := Nat.dvd_trans hdvd h1
  obtain ⟨c, hc⟩ := h2
  omega

theorem sizeAlign_props (lay : Layout) (hpow : ∃ k, lay.align = 2 ^ k) :
    8 ∣ (sizeAlign lay).2 ∧ 8 ∣ (sizeAlign lay).1 ∧ NODE_SIZE ≤ (sizeAlign lay).1 ∧
      0 < (sizeAlign lay).2 := by
  obtain ⟨k, hk⟩ := hpow
  have halign : 8 ∣ max lay.align NODE_ALIGN := by
    rcases Nat.le_total lay.align 8 with h | h
    · have : max lay.align NODE_ALIGN = 8 := by unfold NODE_ALIGN; omega
      rw [this]
    · have hk4 : 3 ≤ k := by
        by_contra hc
        have : k ≤ 2 := by omega
        have : lay.align ≤ 4 := by
          rw [hk]
          calc 2 ^ k ≤ 2 ^ 2 := Nat.pow_le_pow_right (by norm_num) this
            _ = 4 := by norm_num
        omega
      have : max lay.align NODE_ALIGN = lay.align := by unfold NODE_ALIGN; omega
      rw [this, hk]
      calc (8 : Nat) = 2 ^ 3 := by norm_num
        _ ∣ 2 ^ k := pow_dvd_pow 2 hk4
  have hpos : 0 < max lay.align NODE_ALIGN := by unfold NODE_ALIGN; omega
  refine ⟨halign, ?_, ?_, hpos⟩
  · show 8 ∣ max (alignUp lay.size (max lay.align NODE_ALIGN)) NODE_SIZE
    have h1 : 8 ∣ alignUp lay.size (max lay.align NODE_ALIGN) :=
      Nat.dvd_trans halign (Nat.dvd_of_mod_eq_zero (alignUp_mod_self _ _ hpos))
    rcases Nat.le_total (alignUp lay.size (max lay.align NODE_ALIGN)) NODE_SIZE with h | h
    · have : max (alignUp lay.size (max lay.align NODE_ALIGN)) NODE_SIZE = NODE_SIZE := by omega
      rw [this]; unfold NODE_SIZE; norm_num
    · have : max (alignUp lay.size (max lay.align NODE_ALIGN)) NODE_SIZE
          = alignUp lay.size (max lay.align NODE_ALIGN) := by omega
      rw [this]; exact h1
  · show NODE_SIZE ≤ max (alignUp lay.size (max lay.align NODE_ALIGN)) NODE_SIZE
    exact Nat.le_max_right _ _

theorem allocFromRegion_eq_spec (r : Region) (size align : Nat) (hval : r.endAddr < U64MOD) :
    allocFromRegion r size align =
      if specAccepts r size align then some (alignUp r.addr align) else none := by
  unfold allocFromRegion specAccepts
  by_cases h1 : U64MOD ≤ alignUp r.addr align + size
  · rw [if_pos h1, if_neg (by omega)]
  · rw [if_neg h1]
    by_cases h2 : r.endAddr < alignUp r.addr align + size
    · rw [if_pos h2, if_neg (by omega)]
    · rw [if_neg h2]
      by_cases h3 : 0 < r.endAddr - (alignUp r.addr align + size) ∧
          r.endAddr - (alignUp r.addr align + size) < NODE_SIZE
      · rw [if_pos h3, if_neg (by omega)]
      · rw [if_neg h3, if_pos (by constructor <;> omega)]

theorem findFreeRegion_spec (size align : Nat) : ∀ l : List Region,
    (∀ r ∈ l, r.endAddr < U64MOD) →
    (findFreeRegion l size align = none → ∀ r ∈ l, ¬ specAccepts r size align) ∧
    (∀ r s rest, findFreeRegion l size align = some (r, s, rest) →
      ∃ pre post, l = pre ++ r :: post ∧ rest = pre ++ post ∧
        (∀ r' ∈ pre, ¬ specAccepts r' size align) ∧ specAccepts r size align ∧
        s = alignUp r.addr align) := by
  intro l
  induction l with
  | nil =>
      intro _
      refine ⟨fun _ r hr => absurd hr (List.not_mem_nil r), fun r s rest h => by cases h⟩
  | cons x xs ih =>
      intro hval
      have hvx := hval x (List.mem_cons_self _ _)
      have hvxs := fun r hr => hval r (List.mem_cons_of_mem _ hr)
      obtain ⟨ihn, ihs⟩ := ih hvxs
      constructor
      · intro h r hr
        unfold findFreeRegion at h
        rw [allocFromRegion_eq_spec x size align hvx] at h
        by_cases hacc : specAccepts x size align
        · rw [if_pos hacc] at h
          cases h
        · rw [if_neg hacc] at h
          simp only at h
          rcases List.mem_cons.mp hr with rfl | hr'
          · exact hacc
          · rcases hfind : findFreeRegion xs size align with _ | ⟨r', s', rest'⟩
            · exact ihn hfind r hr'
            · rw [hfind] at h
              cases h
      · intro r s rest h
        unfold findFreeRegion at h
        rw [allocFromRegion_eq_spec x size align hvx] at h
        by_cases hacc : specAccepts x size align
        · rw [if_pos hacc] at h
          simp only [Option.some.injEq, Prod.mk.injEq] at h
          obtain ⟨rfl, rfl, rfl⟩ := h
          exact ⟨[], xs, rfl, rfl, fun r' hr' => absurd hr' (List.not_mem_nil r'), hacc, rfl⟩
        · rw [if_neg hacc] at h
          simp only at h
          rcases hfind : findFreeRegion xs size align with _ | ⟨⟨r', s', rest'⟩⟩
          · rw [hfind] at h
            cases h
          · rw [hfind] at h
            simp only [Option.some.injEq, Prod.mk.injEq] at h
            obtain ⟨rfl, rfl, rfl⟩ := h
            obtain ⟨pre, post, hxs, hrest, hpre, haccr, hs⟩ := ihs r' s' rest' hfind
            refine ⟨x :: pre, post, by rw [hxs, List.cons_append], by rw [hrest, List.cons_append], ?_, haccr, hs⟩
            intro r'' hr''
            rcases List.mem_cons.mp hr'' with rfl | hr''
            · exact hacc
            · exact hpre r'' hr''

/-- **C3.** Heap `alloc` is first-fit over the free list: when it returns a
non-null pointer `p`, the free list splits as `pre ++ r :: post` where every
region of `pre` fails the spec's acceptance test, `r` passes it, `p` is
`r`'s start aligned up to the adjusted alignment, `r` is spliced out, and a
positive trailing remainder is inserted as a new free region (at the list
head); and `alloc` returns the null pointer exactly when no region in the
list is acceptable (the address arithmetic of an accepted region cannot
overflow). -/
theorem heap_alloc_first_fit (l : List Region) (lay : Layout)
    (hpow : ∃ k, lay.align = 2 ^ k)
    (hval : ∀ r ∈ l, r.endAddr < U64MOD) :
    (∀ p l', heapAlloc l lay = some (some p, l') →
      ∃ pre r post, l = pre ++ r :: post ∧
        (∀ r' ∈ pre, ¬ specAccepts r' (sizeAlign lay).1 (sizeAlign lay).2) ∧
        specAccepts r (sizeAlign lay).1 (sizeAlign lay).2 ∧
        p = alignUp r.addr (sizeAlign lay).2 ∧
        l' = (if 0 < r.endAddr - (p + (sizeAlign lay).1) then
                ⟨p + (sizeAlign lay).1, r.endAddr - (p + (sizeAlign lay).1)⟩ :: (pre ++ post)
              else pre ++ post)) ∧
    (heapAlloc l lay = some (none, l) ↔
      ∀ r ∈ l, ¬ specAccepts r (sizeAlign lay).1 (sizeAlign lay).2) := by
  obtain ⟨hd2, hd1, hn1, hpos2⟩ := sizeAlign_props lay hpow
  obtain ⟨hnone, hsome⟩ := findFreeRegion_spec (sizeAlign lay).1 (sizeAlign lay).2 l hval
  constructor
  · intro p l' h
    unfold heapAlloc at h
    rcases hfind : findFreeRegion l (sizeAlign lay).1 (sizeAlign lay).2
      with _ | ⟨⟨r, s, rest⟩⟩
    · rw [hfind] at h
      cases h
    · rw [hfind] at h
      simp only at h
      obtain ⟨pre, post, hl, hrest, hpre, hacc, hs⟩ := hsome r s rest hfind
      have hrval : r.endAddr < U64MOD := hval r (by rw [hl]; exact List.mem_append_right _ (List.mem_cons_self _ _))
      have hno : ¬ U64MOD ≤ s + (sizeAlign lay).1 := by
        obtain ⟨hfit, _⟩ := hacc
        rw [hs]
        omega
      rw [if_neg hno] at h
      by_cases hex : 0 < r.endAddr - (s + (sizeAlign lay).1)
      · rw [if_pos hex] at h
        have hadd : addFreeMemRegion rest (s + (sizeAlign lay).1)
            (r.endAddr - (s + (sizeAlign lay).1))
            = some (⟨s + (sizeAlign lay).1, r.endAddr - (s + (sizeAlign lay).1)⟩ :: rest) := by
          have hsm : s % 8 = 0 := by
            rw [hs]
            exact alignUp_mod_eight hpos2 hd2
          have hcond1 : alignUp (s + (sizeAlign lay).1) NODE_ALIGN = s + (sizeAlign lay).1 := by
            refine alignUp_of_mod_eq_zero ?_
            obtain ⟨a, ha⟩ := hd1
            unfold NODE_ALIGN
            omega
          have hcond2 : NODE_SIZE ≤ r.endAddr - (s + (sizeAlign lay).1) := by
            obtain ⟨_, hrem⟩ := hacc
            rw [hs] at hex ⊢
            rcases hrem with hrem | hrem
            · omega
            · omega
          unfold addFreeMemRegion
          rw [if_pos ⟨hcond1, hcond2⟩]
        rw [hadd] at h
        simp only [Option.some.injEq, Prod.mk.injEq] at h
        obtain ⟨hp, hl'⟩ := h
        refine ⟨pre, r, post, hl, hpre, hacc, by rw [← hp, hs], ?_⟩
        rw [← hp, ← hl', if_pos hex, hrest]
      · rw [if_neg hex] at h
        simp only [Option.some.injEq, Prod.mk.injEq] at h
        obtain ⟨hp, hl'⟩ := h
        refine ⟨pre, r, post, hl, hpre, hacc, by rw [← hp, hs], ?_⟩
        rw [← hp, ← hl', if_neg hex, hrest]
  · constructor
    · intro h
      unfold heapAlloc at h
      rcases hfind : findFreeRegion l (sizeAlign lay).1 (sizeAlign lay).2
        with _ | ⟨⟨r, s, rest⟩⟩
      · exact hnone hfind
      · rw [hfind] at h
        simp only at h
        obtain ⟨pre, post, hl, hrest, hpre, hacc, hs⟩ := hsome r s rest hfind
        have hrval : r.endAddr < U64MOD := hval r (by rw [hl]; exact List.mem_append_right _ (List.mem_cons_self _ _))
        have hno : ¬ U64MOD ≤ s + (sizeAlign lay).1 := by
          obtain ⟨hfit, _⟩ := hacc
          rw [hs]
          omega
        rw [if_neg hno] at h
        split at h
        · rcases hadd : addFreeMemRegion rest (s + (sizeAlign lay).1)
              (r.endAddr - (s + (sizeAlign lay).1)) with _ | l2
          · rw [hadd] at h
            cases h
          · rw [hadd] at h
            simp at h
        · simp at h
    · intro h
      have hfind : findFreeRegion l (sizeAlign lay).1 (sizeAlign lay).2 = none := by
        rcases hfind : findFreeRegion l (sizeAlign lay).1 (sizeAlign lay).2
          with _ | ⟨⟨r, s, rest⟩⟩
        · rfl
        · obtain ⟨pre, post, hl, _, _, hacc, _⟩ := hsome r s rest hfind
          exact absurd hacc (h r (by rw [hl]; exact List.mem_append_right _ (List.mem_cons_self _ _)))
      unfold heapAlloc
      rw [hfind]

/-- **C3 witness**: a concrete free list `[0x1000, 0x1040)` and an 8-byte,
8-aligned layout: `alloc` takes the head region, returns `0x1000` and
inserts the 48-byte remainder. -/
theorem heap_alloc_first_fit_witness :
    heapAlloc [⟨0x1000, 0x40⟩] ⟨8, 8⟩ = some (some 0x1000, [⟨0x1010, 0x30⟩]) ∧
      (∃ pre r post, ([⟨0x1000, 0x40⟩] : List Region) = pre ++ r :: post ∧
        (∀ r' ∈ pre, ¬ specAccepts r' (sizeAlign ⟨8, 8⟩).1 (sizeAlign ⟨8, 8⟩).2) ∧
        specAccepts r (sizeAlign ⟨8, 8⟩).1 (sizeAlign ⟨8, 8⟩).2 ∧
        0x1000 = alignUp r.addr (sizeAlign ⟨8, 8⟩).2 ∧
        [(⟨0x1010, 0x30⟩ : Region)] =
          (if 0 < r.endAddr - (0x1000 + (sizeAlign ⟨8, 8⟩).1) then
            ⟨0x1000 + (sizeAlign ⟨8, 8⟩).1, r.endAddr - (0x1000 + (sizeAlign ⟨8, 8⟩).1)⟩
              :: (pre ++ post)
          else pre ++ post)) := by
  refine ⟨by decide, ?_⟩
  exact (heap_alloc_first_fit [⟨0x1000, 0x40⟩] ⟨8, 8⟩ ⟨3, by norm_num⟩
    (by intro r hr; simp at hr; subst hr; decide)).1 0x1000 [⟨0x1010, 0x30⟩] (by decide)

/-- **C4.** Reuse after free: if `alloc(L)` returns a non-null `p`, then
`dealloc(p, L)` succeeds (the freed block, pushed at the head of the free
list, is `ListNode`-aligned and large enough), and a subsequent `alloc(L)`
returns the same non-null pointer `p` — the head region passes the
first-fit acceptance test for the same adjusted size and alignment with a
zero remainder. -/
theorem heap_reuse_after_free (l : List Region) (lay : Layout) (p : Nat) (l1 : List Region)
    (hpow : ∃ k, lay.align = 2 ^ k)
    (hval : ∀ r ∈ l, r.endAddr < U64MOD)
    (h1 : heapAlloc l lay = some (some p, l1)) :
    heapDealloc l1 p lay = some (⟨p, (sizeAlign lay).1⟩ :: l1) ∧
      heapAlloc (⟨p, (sizeAlign lay).1⟩ :: l1) lay = some (some p, l1) := by
  obtain ⟨hd2, hd1, hn1, hpos2⟩ := sizeAlign_props lay hpow
  obtain ⟨hnone, hsome⟩ := findFreeRegion_spec (sizeAlign lay).1 (sizeAlign lay).2 l hval
  -- extract what the successful alloc tells us about p
  unfold heapAlloc at h1
  rcases hfind : findFreeRegion l (sizeAlign lay).1 (sizeAlign lay).2
    with _ | ⟨⟨r, s, rest⟩⟩
  · rw [hfind] at h1
    cases h1
  rw [hfind] at h1
  simp only at h1
  obtain ⟨pre, post, hl, hrest, hpre, hacc, hs⟩ := hsome r s rest hfind
  have hrval : r.endAddr < U64MOD :=
    hval r (by rw [hl]; exact List.mem_append_right _ (List.mem_cons_self _ _))
  have hno : ¬ U64MOD ≤ s + (sizeAlign lay).1 := by
    obtain ⟨hfit, _⟩ := hacc
    rw [hs]
    omega
  rw [if_neg hno] at h1
  have hps : p = s := by
    split at h1
    · rcases hadd : addFreeMemRegion rest (s + (sizeAlign lay).1)
          (r.endAddr - (s + (sizeAlign lay).1)) with _ | l2
      · rw [hadd] at h1
        cases h1
      · rw [hadd] at h1
        simp only [Option.some.injEq, Prod.mk.injEq] at h1
        exact h1.1.symm
    · simp only [Option.some.injEq, Prod.mk.injEq] at h1
      exact h1.1.symm
  have hpalign : p % (sizeAlign lay).2 = 0 := by
    rw [hps, hs]
    exact alignUp_mod_self _ _ hpos2
  have hp8 : p % 8 = 0 := by
    rw [hps, hs]
    exact alignUp_mod_eight hpos2 hd2
  have hoverflow : p + (sizeAlign lay).1 < U64MOD := by
    rw [hps]
    omega
  have hdealloc : heapDealloc l1 p lay = some (⟨p, (sizeAlign lay).1⟩ :: l1) := by
    unfold heapDealloc addFreeMemRegion
    rw [if_pos ⟨alignUp_of_mod_eq_zero hp8, hn1⟩]
  refine ⟨hdealloc, ?_⟩
  -- the second alloc hits the freshly pushed head region with zero excess
  have hend : (⟨p, (sizeAlign lay).1⟩ : Region).endAddr = p + (sizeAlign lay).1 := rfl
  have hafr : allocFromRegion ⟨p, (sizeAlign lay).1⟩ (sizeAlign lay).1 (sizeAlign lay).2
      = some p := by
    have hup : alignUp p (sizeAlign lay).2 = p := alignUp_of_mod_eq_zero hpalign
    unfold allocFromRegion
    rw [hup, hend]
    rw [if_neg (by omega), if_neg (by omega), if_neg (by omega)]
  unfold heapAlloc findFreeRegion
  rw [hafr]
  simp only
  rw [hend]
  rw [if_neg (by omega)]
  rw [if_neg (by omega)]

/-! ### Page-table lemmas (towards C2 and C6) -/

theorem setEntry_apply (m : PhysMem) (tf i : Nat) (e : Entry) (a j : Nat) :
    setEntry m tf i e a j = if a = tf ∧ j = i then e else m a j := by
  unfold setEntry
  by_cases h1 : a = tf
  · subst h1
    by_cases h2 : j = i
    · subst h2
      simp [Function.update]
    · simp [Function.update, h2]
  · simp [Function.update, h1]

theorem update_mem_apply (m : PhysMem) (g : Nat) (t : Nat → Entry) (a j : Nat) :
    Function.update m g t a j = if a = g then t j else m a j := by
  by_cases h : a = g
  · subst h
    simp [Function.update]
  · simp [Function.update, h]

theorem nextTableCreate_spec {st : Mapper} {tf i : Nat} {st' : Mapper} {g : Nat}
    (hb : FrameBound st) (htf : tf < st.next)
    (h : nextTableCreate st tf i = some (st', g)) :
    ((st'.mem tf i).flags.present = true ∧ (st'.mem tf i).flags.huge = false ∧
      (st'.mem tf i).frame = g) ∧
    (g < st'.next ∧ st.next ≤ st'.next ∧ st'.p4 = st.p4) ∧
    (∀ a j, a < st.next → (st.mem a j).flags.present → st'.mem a j = st.mem a j) ∧
    (∀ a j, st'.mem a j ≠ st.mem a j → (a = tf ∧ j = i) ∨ st.next ≤ a) ∧
    (st.next ≤ g → ∀ j, st'.mem g j = Entry.unused) ∧
    (st.mem tf i ≠ st'.mem tf i → st.next ≤ g ∧ (st.mem tf i).flags.present = false) ∧
    (g < st.next → st' = st) ∧ st'.next ≤ st.next + 1 ∧
    FrameBound st' := by
  unfold nextTableCreate at h
  rcases hnt : nextTableFrame st.mem tf i with _ | g0
  · rw [hnt] at h
    simp only at h
    split at h
    · cases h
    · rename_i hhuge
      have hne : tf ≠ st.next := Nat.ne_of_lt htf
      have hm2 : ∀ a j,
          Function.update (setEntry st.mem tf i (Entry.set st.next ⟨true, true, false⟩))
            st.next zeroTable a j
          = if a = st.next then Entry.unused
            else if a = tf ∧ j = i then Entry.set st.next ⟨true, true, false⟩
            else st.mem a j := by
        intro a j
        rw [update_mem_apply]
        by_cases ha : a = st.next
        · rw [if_pos ha, if_pos ha]
          rfl
        · rw [if_neg ha, if_neg ha, setEntry_apply]
      have hread : nextTableFrame
          (Function.update (setEntry st.mem tf i (Entry.set st.next ⟨true, true, false⟩))
            st.next zeroTable) tf i = some st.next := by
        unfold nextTableFrame
        rw [hm2]
        simp [hne, Entry.set]
      rw [hread] at h
      simp only [Option.some.injEq, Prod.mk.injEq] at h
      obtain ⟨hst', hg⟩ := h
      subst hg
      have hmem' : ∀ a j, st'.mem a j
          = if a = st.next then Entry.unused
            else if a = tf ∧ j = i then Entry.set st.next ⟨true, true, false⟩
            else st.mem a j := by
        intro a j
        rw [← hst']
        exact hm2 a j
      have hnext' : st'.next = st.next + 1 := by rw [← hst']
      have hp4' : st'.p4 = st.p4 := by rw [← hst']
      -- the entry was not present before creation
      have hold : (st.mem tf i).flags.present = false := by
        unfold nextTableFrame at hnt
        by_cases hp : (st.mem tf i).flags.present
        · exfalso
          rw [if_pos] at hnt
          · cases hnt
          · simp [hp, hhuge]
        · simpa using hp
      refine ⟨?_, ⟨?_, ?_, hp4'⟩, ?_, ?_, ?_, ?_, ?_, ?_, ?_⟩
      · rw [hmem', if_neg hne, if_pos ⟨rfl, rfl⟩]
        exact ⟨rfl, rfl, rfl⟩
      · rw [hnext']; omega
      · rw [hnext']; omega
      · intro a j ha hpres
        rw [hmem', if_neg (by omega), if_neg ?_]
        intro ⟨h1, h2⟩
        subst h1; subst h2
        rw [hold] at hpres
        cases hpres
      · intro a j hne'
        rw [hmem'] at hne'
        by_cases ha : a = st.next
        · exact Or.inr (by omega)
        · rw [if_neg ha] at hne'
          by_cases hij : a = tf ∧ j = i
          · exact Or.inl hij
          · rw [if_neg hij] at hne'
            exact absurd rfl hne'
      · intro _ j
        rw [hmem', if_pos rfl]
      · intro _
        exact ⟨Nat.le_refl _, hold⟩
      · intro hlt
        omega
      · rw [hnext']
      · constructor
        · rw [hnext', hp4']
          have := hb.1
          omega
        · intro a j hpres
          rw [hmem'] at hpres ⊢
          by_cases ha : a = st.next
          · rw [if_pos ha] at hpres
            cases hpres
          · rw [if_neg ha] at hpres ⊢
            by_cases hij : a = tf ∧ j = i
            · rw [if_pos hij] at hpres ⊢
              rw [hnext']
              simp [Entry.set]
            · rw [if_neg hij] at hpres ⊢
              have := hb.2 a j hpres
              rw [hnext']
              omega
  · rw [hnt] at h
    simp only [Option.some.injEq, Prod.mk.injEq] at h
    obtain ⟨hst', hg⟩ := h
    subst hst'; subst hg
    have hentry : (st.mem tf i).flags.present = true ∧ (st.mem tf i).flags.huge = false ∧
        (st.mem tf i).frame = g0 := by
      unfold nextTableFrame at hnt
      split at hnt
      · rename_i hcond
        simp only [Bool.and_eq_true, Bool.not_eq_true'] at hcond
        exact ⟨hcond.1, hcond.2, by cases hnt; rfl⟩
      · cases hnt
    have hg0lt : g0 < st.next := by
      have := hb.2 tf i (by rw [hentry.1])
      rw [hentry.2.2] at this
      exact this
    refine ⟨hentry, ⟨hg0lt, Nat.le_refl _, rfl⟩, fun a j _ _ => rfl, ?_, ?_, ?_,
      fun _ => rfl, Nat.le_succ _, hb⟩
    · intro a j hne'
      exact absurd rfl hne'
    · intro hg0
      omega
    · intro hc
      exact absurd rfl hc

theorem mapTo_spec {st : Mapper} {p f : Nat} {fl : EntryFlags} {st' : Mapper}
    (hb : FrameBound st) (h : mapTo st p f fl = some st') :
    ∃ f3 f2 f1, MapToFacts st st' p f fl f3 f2 f1 := by
  unfold mapTo at h
  rcases h1 : nextTableCreate st st.p4 (p4Index p) with _ | ⟨st1, f3⟩
  · rw [h1] at h; cases h
  rw [h1] at h
  simp only at h
  rcases h2 : nextTableCreate st1 f3 (p3Index p) with _ | ⟨st2, f2⟩
  · rw [h2] at h; cases h
  rw [h2] at h
  simp only at h
  rcases h3 : nextTableCreate st2 f2 (p2Index p) with _ | ⟨st3, f1⟩
  · rw [h3] at h; cases h
  rw [h3] at h
  simp only at h
  split at h
  case some.mk.some.mk.some.mk.isFalse => cases h
  case some.mk.some.mk.some.mk.isTrue hunused =>
  simp only [Option.some.injEq] at h
  obtain ⟨e1, ⟨g1lt, mono1, p41⟩, pres1, delta1, zero1, wold1, steq1, nle1, fb1⟩ :=
    nextTableCreate_spec hb hb.1 h1
  obtain ⟨e2, ⟨g2lt, mono2, p42⟩, pres2, delta2, zero2, wold2, steq2, nle2, fb2⟩ :=
    nextTableCreate_spec fb1 g1lt h2
  obtain ⟨e3, ⟨g3lt, mono3, p43⟩, pres3, delta3, zero3, wold3, steq3, nle3, fb3⟩ :=
    nextTableCreate_spec fb2 g2lt h3
  have hun : st3.mem f1 (p1Index p) = Entry.unused := of_decide_eq_true hunused
  have hp4lt1 : st.p4 < st1.next := Nat.lt_of_lt_of_le hb.1 mono1
  have hp4lt2 : st.p4 < st2.next := Nat.lt_of_lt_of_le hp4lt1 mono2
  have hf3lt2 : f3 < st2.next := Nat.lt_of_lt_of_le g1lt mono2
  obtain ⟨hmemE, hp4E, hnextE⟩ : st'.mem = setEntry st3.mem f1 (p1Index p)
        (Entry.set f (fl.union EntryFlags.PRESENT)) ∧ st'.p4 = st3.p4 ∧ st'.next = st3.next := by
    rw [← h]
    exact ⟨rfl, rfl, rfl⟩
  have hfin : ∀ a j, st'.mem a j =
      if a = f1 ∧ j = p1Index p then Entry.set f (fl.union EntryFlags.PRESENT)
      else st3.mem a j := by
    intro a j
    rw [hmemE, setEntry_apply]
  -- path entries as they stand in st3
  have hmid : st2.mem st.p4 (p4Index p) = st1.mem st.p4 (p4Index p) :=
    pres2 _ _ hp4lt1 (by rw [e1.1])
  have he1c : st3.mem st.p4 (p4Index p) = st1.mem st.p4 (p4Index p) := by
    rw [pres3 _ _ hp4lt2 (by rw [hmid]; exact e1.1), hmid]
  have he2c : st3.mem f3 (p3Index p) = st2.mem f3 (p3Index p) :=
    pres3 _ _ hf3lt2 (by rw [e2.1])
  -- the final write position differs from every (present) path position
  have hne4 : ¬(st.p4 = f1 ∧ p4Index p = p1Index p) := by
    rintro ⟨ha, hj⟩
    rw [← ha, ← hj] at hun
    have hpr := e1.1
    rw [← he1c, hun] at hpr
    simp [Entry.unused] at hpr
  have hne3 : ¬(f3 = f1 ∧ p3Index p = p1Index p) := by
    rintro ⟨ha, hj⟩
    rw [← ha, ← hj] at hun
    have hpr := e2.1
    rw [← he2c, hun] at hpr
    simp [Entry.unused] at hpr
  have hne2 : ¬(f2 = f1 ∧ p2Index p = p1Index p) := by
    rintro ⟨ha, hj⟩
    rw [← ha, ← hj] at hun
    have hpr := e3.1
    rw [hun] at hpr
    simp [Entry.unused] at hpr
  -- values of the path entries in the final state
  have hv4 : st'.mem st.p4 (p4Index p) = st1.mem st.p4 (p4Index p) := by
    rw [hfin, if_neg hne4, he1c]
  have hv3 : st'.mem f3 (p3Index p) = st2.mem f3 (p3Index p) := by
    rw [hfin, if_neg hne3, he2c]
  have hv2 : st'.mem f2 (p2Index p) = st3.mem f2 (p2Index p) := by
    rw [hfin, if_neg hne2]
  -- helper freshness steps
  have hstep2fresh : st.next ≤ f3 → st1.next ≤ f2 := by
    intro hf3
    refine (wold2 ?_).1
    intro hceq
    have hpr := e2.1
    rw [← hceq, zero1 hf3] at hpr
    simp [Entry.unused] at hpr
  have hstep3fresh : st1.next ≤ f2 → st2.next ≤ f1 := by
    intro hf2
    refine (wold3 ?_).1
    intro hceq
    have hpr := e3.1
    rw [← hceq, zero2 hf2] at hpr
    simp [Entry.unused] at hpr
  have hstep1 : (st1 = st ∧ st1.next = st.next ∧ f3 < st.next) ∨
      (f3 = st.next ∧ st1.next = st.next + 1) := by
    by_cases hc : f3 < st.next
    · have h10 := steq1 hc
      exact Or.inl ⟨h10, by rw [h10], hc⟩
    · exact Or.inr ⟨by omega, by omega⟩
  have hstep2 : (st2 = st1 ∧ st2.next = st1.next ∧ f2 < st1.next) ∨
      (f2 = st1.next ∧ st2.next = st1.next + 1) := by
    by_cases hc : f2 < st1.next
    · have h21 := steq2 hc
      exact Or.inl ⟨h21, by rw [h21], hc⟩
    · exact Or.inr ⟨by omega, by omega⟩
  have hstep3 : (st3 = st2 ∧ st3.next = st2.next ∧ f1 < st2.next) ∨
      (f1 = st2.next ∧ st3.next = st2.next + 1) := by
    by_cases hc : f1 < st2.next
    · have h32 := steq3 hc
      exact Or.inl ⟨h32, by rw [h32], hc⟩
    · exact Or.inr ⟨by omega, by omega⟩
  have hfresh2' : st.next ≤ f2 → st1.next ≤ f2 := by
    intro hf2
    rcases hstep1 with ⟨h10, hn10, hlt1⟩ | ⟨hf3v, hn1v⟩
    · omega
    · by_cases hc : f2 < st1.next
      · exfalso
        rcases hstep2 with ⟨h21, _, _⟩ | ⟨hf2v, _⟩
        · have hpr := e2.1
          rw [h21] at hpr
          have hz := zero1 (by omega) (p3Index p)
          rw [hz] at hpr
          simp [Entry.unused] at hpr
        · omega
      · omega
  have hfresh1' : st.next ≤ f1 → st2.next ≤ f1 := by
    intro hf1
    by_cases hc : f1 < st2.next
    · exfalso
      have h32 := steq3 hc
      by_cases hc2 : st1.next ≤ f2
      · have hz := zero2 hc2 (p2Index p)
        have hpr := e3.1
        rw [h32, hz] at hpr
        simp [Entry.unused] at hpr
      · have h21 := steq2 (by omega)
        by_cases hc3 : f3 < st.next
        · have h10 := steq1 hc3
          have hnn : st2.next = st.next := by rw [h21, h10]
          omega
        · have hz := zero1 (by omega) (p3Index p)
          have hpr := e2.1
          rw [h21, hz] at hpr
          simp [Entry.unused] at hpr
    · omega
  refine ⟨f3, f2, f1, ?_⟩
  refine
    { walk := ?_
      entry := by rw [hfin, if_pos ⟨rfl, rfl⟩]
      b3 := by rw [hnextE]; omega
      b2 := by rw [hnextE]; omega
      b1 := by rw [hnextE]; omega
      mono := by rw [hnextE]; omega
      p4eq := by rw [hp4E, p43, p42, p41]
      pres := ?_
      delta := ?_
      fresh3 := ?_
      fresh2 := ?_
      fresh1 := ?_
      new3 := ?_
      new2 := ?_
      new1 := ?_
      ne4 := hne4
      ne3 := hne3
      ne2 := hne2
      chain32 := fun h => Nat.le_trans mono1 (hstep2fresh h)
      chain21 := fun h =>
        Nat.le_trans (Nat.le_trans mono1 mono2) (hstep3fresh (hfresh2' h))
      ord32 := fun h => Nat.lt_of_lt_of_le g1lt (hfresh2' h)
      ord21 := fun h => Nat.lt_of_lt_of_le g2lt (hfresh1' h)
      freshCover := ?_
      bound := ?_ }
  · -- the walk
    refine ⟨?_, ?_, ?_⟩
    · unfold nextTableFrame
      rw [hp4E, p43, p42, p41, hv4, e1.1, e1.2.1, e1.2.2]
      simp
    · unfold nextTableFrame
      rw [hv3, e2.1, e2.2.1, e2.2.2]
      simp
    · unfold nextTableFrame
      rw [hv2, e3.1, e3.2.1, e3.2.2]
      simp
  · -- preservation of present entries
    intro a j ha hpres
    have s1 := pres1 a j ha hpres
    have hpres1 : (st1.mem a j).flags.present = true := by rw [s1]; exact hpres
    have s2 := pres2 a j (Nat.lt_of_lt_of_le ha mono1) hpres1
    have hpres2 : (st2.mem a j).flags.present = true := by rw [s2]; exact hpres1
    have s3 := pres3 a j (Nat.lt_of_lt_of_le (Nat.lt_of_lt_of_le ha mono1) mono2) hpres2
    have hpres3 : (st3.mem a j).flags.present = true := by rw [s3]; exact hpres2
    rw [hfin, if_neg ?_, s3, s2, s1]
    rintro ⟨rfl, rfl⟩
    rw [hun] at hpres3
    simp [Entry.unused] at hpres3
  · -- the changed positions
    intro a j hne'
    by_cases hfe : a = f1 ∧ j = p1Index p
    · exact Or.inr (Or.inr (Or.inr (Or.inl hfe)))
    · rw [hfin, if_neg hfe] at hne'
      by_cases h32 : st3.mem a j = st2.mem a j
      · rw [h32] at hne'
        by_cases h21 : st2.mem a j = st1.mem a j
        · rw [h21] at hne'
          rcases delta1 a j hne' with h' | h'
          · exact Or.inl h'
          · exact Or.inr (Or.inr (Or.inr (Or.inr h')))
        · rcases delta2 a j h21 with h' | h'
          · exact Or.inr (Or.inl h')
          · exact Or.inr (Or.inr (Or.inr (Or.inr (Nat.le_trans mono1 h'))))
      · rcases delta3 a j h32 with h' | h'
        · exact Or.inr (Or.inr (Or.inl h'))
        · exact Or.inr (Or.inr (Or.inr (Or.inr (by omega))))
  · -- fresh3: a newly created L3 table holds nothing but the path entry
    intro hf3 j hj
    have hz1 := zero1 hf3
    have hf2f : st1.next ≤ f2 := hstep2fresh hf3
    have hf1f : st2.next ≤ f1 := hstep3fresh hf2f
    have h2z : st2.mem f3 j = st1.mem f3 j := by
      by_contra hc
      rcases delta2 _ _ hc with ⟨_, hj'⟩ | h'
      · exact hj hj'
      · omega
    have h3z : st3.mem f3 j = st2.mem f3 j := by
      by_contra hc
      rcases delta3 _ _ hc with ⟨ha', _⟩ | h'
      · omega
      · omega
    rw [hfin, if_neg (by rintro ⟨ha', _⟩; omega), h3z, h2z, hz1]
  · -- fresh2
    intro hf2 j hj
    by_cases hcase : st1.next ≤ f2
    · have hz2 := zero2 hcase
      have hf1f : st2.next ≤ f1 := hstep3fresh hcase
      have h3z : st3.mem f2 j = st2.mem f2 j := by
        by_contra hc
        rcases delta3 _ _ hc with ⟨_, hj'⟩ | h'
        · exact hj hj'
        · omega
      rw [hfin, if_neg (by rintro ⟨ha', _⟩; omega), h3z, hz2]
    · exfalso
      have h21 : st2 = st1 := steq2 (by omega)
      by_cases hcase3 : f3 < st.next
      · have h10 : st1 = st := steq1 hcase3
        rw [h10] at hcase
        omega
      · have hz1 := zero1 (by omega)
        have hpr := e2.1
        rw [h21, hz1] at hpr
        simp [Entry.unused] at hpr
  · -- fresh1
    intro hf1 j hj
    by_cases hcase : st2.next ≤ f1
    · rw [hfin, if_neg (by rintro ⟨_, hj'⟩; exact hj hj'), zero3 hcase]
    · have h32 : st3 = st2 := steq3 (by omega)
      by_cases hcase2 : st1.next ≤ f2
      · exfalso
        have hz2 := zero2 hcase2
        have hpr := e3.1
        rw [h32, hz2] at hpr
        simp [Entry.unused] at hpr
      · have h21 : st2 = st1 := steq2 (by omega)
        by_cases hcase3 : f3 < st.next
        · exfalso
          have h10 : st1 = st := steq1 hcase3
          have hnn : st2.next = st.next := by rw [h21, h10]
          omega
        · have hf3eq : f3 = st.next := by omega
          have hf1eq : f1 = f3 := by
            have hn21 : st2.next = st1.next := by rw [h21]
            omega
          have hz1 := zero1 (by omega)
          have hss : st3.mem f1 j = Entry.unused := by
            rw [h32, h21, hf1eq]
            exact hz1 j
          rw [hfin, if_neg (by rintro ⟨_, hj'⟩; exact hj hj')]
          exact hss
  · -- new3
    intro hch
    rw [hv4] at hch
    exact (wold1 (Ne.symm hch)).1
  · -- new2
    intro hch
    rw [hv3] at hch
    by_cases h21 : st2.mem f3 (p3Index p) = st1.mem f3 (p3Index p)
    · rw [h21] at hch
      rcases delta1 _ _ hch with ⟨hfp, hj⟩ | hfr
      · exfalso
        have hch' : st1.mem st.p4 (p4Index p) ≠ st.mem st.p4 (p4Index p) := by
          rw [← hfp, ← hj]
          exact hch
        have hle := (wold1 (Ne.symm hch')).1
        have := hb.1
        omega
      · exact Nat.le_trans mono1 (hstep2fresh hfr)
    · exact Nat.le_trans mono1 ((wold2 (Ne.symm h21)).1)
  · -- new1
    intro hch
    rw [hv2] at hch
    by_cases h32 : st3.mem f2 (p2Index p) = st2.mem f2 (p2Index p)
    · rw [h32] at hch
      by_cases h21 : st2.mem f2 (p2Index p) = st1.mem f2 (p2Index p)
      · rw [h21] at hch
        rcases delta1 _ _ hch with ⟨hfp, hj⟩ | hfr
        · exfalso
          have hch' : st1.mem st.p4 (p4Index p) ≠ st.mem st.p4 (p4Index p) := by
            rw [← hfp, ← hj]
            exact hch
          have hc3 : st.next ≤ f3 := (wold1 (Ne.symm hch')).1
          have hc2 : st1.next ≤ f2 := hstep2fresh hc3
          have := hb.1
          omega
        · by_cases hcase2 : st1.next ≤ f2
          · exact Nat.le_trans (Nat.le_trans mono1 mono2) (hstep3fresh hcase2)
          · have hc3 : st.next ≤ f3 := by
              by_contra hc
              have h10 : st1 = st := steq1 (by omega)
              rw [h10] at hch
              exact hch rfl
            have : st1.next ≤ f2 := hstep2fresh hc3
            omega
      · rcases delta2 _ _ h21 with ⟨hff, hj⟩ | hfr
        · have h21' : st1.mem f3 (p3Index p) ≠ st2.mem f3 (p3Index p) := by
            intro hq
            apply h21
            rw [hff, hj]
            exact hq.symm
          exact Nat.le_trans (Nat.le_trans mono1 mono2) (hstep3fresh (wold2 h21').1)
        · exact Nat.le_trans (Nat.le_trans mono1 mono2) (hstep3fresh hfr)
    · exact Nat.le_trans (Nat.le_trans mono1 mono2) ((wold3 (Ne.symm h32)).1)
  · -- freshCover: frames allocated during the walk are exactly f3, f2, f1
    intro a ha1 ha2
    rw [hnextE] at ha2
    rcases hstep1 with ⟨h10, hn1, hlt1⟩ | ⟨hf3v, hn1⟩ <;>
      rcases hstep2 with ⟨h21, hn2, hlt2⟩ | ⟨hf2v, hn2⟩ <;>
        rcases hstep3 with ⟨h32, hn3, hlt3⟩ | ⟨hf1v, hn3⟩ <;>
          omega
  · -- FrameBound of the final state when the mapped frame is itself fresh-bounded
    intro hf
    constructor
    · rw [hnextE, hp4E, p43, p42, p41]
      have := hb.1
      omega
    · intro a j hpres
      rw [hfin] at hpres ⊢
      by_cases hpos : a = f1 ∧ j = p1Index p
      · rw [if_pos hpos] at hpres ⊢
        rw [hnextE]
        simp only [Entry.set]
        omega
      · rw [if_neg hpos] at hpres ⊢
        have := fb3.2 a j hpres
        rw [hnextE]
        omega

/-- **C4 witness**: on the C3 witness state, freeing the 16-byte block at
`0x1000` and allocating again returns `0x1000` once more. -/
theorem heap_reuse_after_free_witness :
    heapDealloc [⟨0x1010, 0x30⟩] 0x1000 ⟨8, 8⟩
        = some (⟨0x1000, (sizeAlign ⟨8, 8⟩).1⟩ :: [⟨0x1010, 0x30⟩]) ∧
      heapAlloc (⟨0x1000, (sizeAlign ⟨8, 8⟩).1⟩ :: [⟨0x1010, 0x30⟩]) ⟨8, 8⟩
        = some (some 0x1000, [⟨0x1010, 0x30⟩]) :=
  heap_reuse_after_free [⟨0x1000, 0x40⟩] ⟨8, 8⟩ 0x1000 [⟨0x1010, 0x30⟩]
    ⟨3, by norm_num⟩ (by intro r hr; simp at hr; subst hr; decide) (by decide)


/-! ### Translate / unmap lemmas (C2) -/

theorem nextTableFrame_inv {m : PhysMem} {tf i g : Nat}
    (h : nextTableFrame m tf i = some g) :
    (m tf i).flags.present = true ∧ (m tf i).flags.huge = false ∧ (m tf i).frame = g := by
  unfold nextTableFrame at h
  split at h
  · rename_i hc
    simp only [Bool.and_eq_true, Bool.not_eq_true'] at hc
    exact ⟨hc.1, hc.2, Option.some.inj h⟩
  · cases h

theorem nextTableFrame_congr {m m' : PhysMem} {a i : Nat}
    (h : m' a i = m a i) : nextTableFrame m' a i = nextTableFrame m a i := by
  unfold nextTableFrame
  rw [h]

theorem translatePage_some_of_walk {st : Mapper} {p f3 f2 f1 f : Nat}
    (hw : WalkPath st p f3 f2 f1)
    (he : (st.mem f1 (p1Index p)).pointedFrame = some f) :
    translatePage st p = some f := by
  obtain ⟨w4, w3, w2⟩ := hw
  unfold translatePage
  rw [w4]
  simp only [Option.some_bind]
  rw [w3]
  simp only [Option.some_bind]
  rw [w2]
  simp only [Option.some_bind]
  rw [he]

theorem hugeCalc_none_of_path {m : PhysMem} {p f3 f2 : Nat}
    (w3 : nextTableFrame m f3 (p3Index p) = some f2)
    (hh2 : (m f2 (p2Index p)).flags.huge = false) :
    hugeCalc m (some f3) p = none := by
  obtain ⟨hp3, hh3, hf3⟩ := nextTableFrame_inv w3
  have hpf3 : (m f3 (p3Index p)).pointedFrame = some (m f3 (p3Index p)).frame := by
    unfold Entry.pointedFrame
    rw [hp3]
    rfl
  unfold hugeCalc
  simp only
  rw [hpf3]
  simp only [hh3, Bool.false_eq_true, if_false]
  unfold hugeCalcL2
  rw [w3]
  simp only
  rcases hpf2 : (m f2 (p2Index p)).pointedFrame with _ | sf
  · rfl
  · simp only [hh2, Bool.false_eq_true, if_false]

theorem translatePage_none_of_unused {st : Mapper} {p f3 f2 f1 : Nat}
    (hw : WalkPath st p f3 f2 f1)
    (hu : st.mem f1 (p1Index p) = Entry.unused) :
    translatePage st p = none := by
  obtain ⟨w4, w3, w2⟩ := hw
  obtain ⟨hp2, hh2, hf2⟩ := nextTableFrame_inv w2
  have hpf : (st.mem f1 (p1Index p)).pointedFrame = none := by
    rw [hu]
    rfl
  unfold translatePage
  rw [w4]
  simp only [Option.some_bind]
  rw [w3]
  simp only [Option.some_bind]
  rw [w2]
  simp only [Option.some_bind]
  rw [hpf]
  exact hugeCalc_none_of_path w3 hh2

theorem translate_page_mul {st : Mapper} {p : Nat} (hc : canonicalPage p) :
    translate st (p * PAGE_SIZE) = (translatePage st p).map fun fr => fr * PAGE_SIZE := by
  unfold translate
  have hcond : p * PAGE_SIZE < 0x800000000000 ∨ 0xffff800000000000 ≤ p * PAGE_SIZE := by
    rcases hc with h | h
    · exact Or.inl h
    · exact Or.inr h.1
  rw [if_pos hcond]
  have h1 : p * PAGE_SIZE / PAGE_SIZE = p := by
    unfold PAGE_SIZE
    omega
  have h2 : p * PAGE_SIZE % PAGE_SIZE = 0 := by
    unfold PAGE_SIZE
    omega
  rw [h1, h2]
  simp

/-- **C2**: after a successful `map_to(p, f, flags)` (with `flags` not
containing `HUGE_PAGE`), `translate(p.start_address())` returns
`Some(f.start_address())`; and a subsequent `unmap(p)` succeeds and leaves
`translate(p.start_address()) = None`. -/
theorem map_to_translate_unmap {st st' : Mapper} {p f : Nat} {fl : EntryFlags}
    (hb : FrameBound st) (hcan : canonicalPage p) (hhuge : fl.huge = false)
    (hmap : mapTo st p f fl = some st') :
    translate st' (p * PAGE_SIZE) = some (f * PAGE_SIZE) ∧
      ∃ st'', unmap st' p = some st'' ∧ translate st'' (p * PAGE_SIZE) = none := by
  obtain ⟨f3, f2, f1, mf⟩ := mapTo_spec hb hmap
  have hpf : (st'.mem f1 (p1Index p)).pointedFrame = some f := by
    rw [mf.entry]
    simp [Entry.pointedFrame, Entry.set, EntryFlags.union, EntryFlags.PRESENT]
  have htp : translatePage st' p = some f := translatePage_some_of_walk mf.walk hpf
  have htr : translate st' (p * PAGE_SIZE) = some (f * PAGE_SIZE) := by
    rw [translate_page_mul hcan, htp]
    rfl
  refine ⟨htr, ?_⟩
  obtain ⟨w4, w3, w2⟩ := mf.walk
  refine ⟨{ st' with mem := setEntry st'.mem f1 (p1Index p) Entry.unused }, ?_, ?_⟩
  · unfold unmap
    rw [if_pos (by rw [htr]; rfl)]
    rw [w4]
    simp only
    rw [w3]
    simp only
    rw [w2]
    simp only
    rw [hpf]
  · have hne4 : ¬(st'.p4 = f1 ∧ p4Index p = p1Index p) := by
      rw [mf.p4eq]
      exact mf.ne4
    have hwalk : WalkPath { st' with mem := setEntry st'.mem f1 (p1Index p) Entry.unused }
        p f3 f2 f1 := by
      refine ⟨?_, ?_, ?_⟩
      · show nextTableFrame (setEntry st'.mem f1 (p1Index p) Entry.unused)
          st'.p4 (p4Index p) = some f3
        have e4 : setEntry st'.mem f1 (p1Index p) Entry.unused st'.p4 (p4Index p) =
            st'.mem st'.p4 (p4Index p) := by
          rw [setEntry_apply, if_neg hne4]
        rw [nextTableFrame_congr e4]
        exact w4
      · show nextTableFrame (setEntry st'.mem f1 (p1Index p) Entry.unused)
          f3 (p3Index p) = some f2
        have e3 : setEntry st'.mem f1 (p1Index p) Entry.unused f3 (p3Index p) =
            st'.mem f3 (p3Index p) := by
          rw [setEntry_apply, if_neg mf.ne3]
        rw [nextTableFrame_congr e3]
        exact w3
      · show nextTableFrame (setEntry st'.mem f1 (p1Index p) Entry.unused)
          f2 (p2Index p) = some f1
        have e2 : setEntry st'.mem f1 (p1Index p) Entry.unused f2 (p2Index p) =
            st'.mem f2 (p2Index p) := by
          rw [setEntry_apply, if_neg mf.ne2]
        rw [nextTableFrame_congr e2]
        exact w2
    have hu : ({ st' with mem := setEntry st'.mem f1 (p1Index p) Entry.unused } : Mapper).mem
        f1 (p1Index p) = Entry.unused := by
      show setEntry st'.mem f1 (p1Index p) Entry.unused f1 (p1Index p) = Entry.unused
      rw [setEntry_apply, if_pos ⟨rfl, rfl⟩]
    rw [translate_page_mul hcan, translatePage_none_of_unused hwalk hu]
    rfl

/-- **C2 witness**: over the empty mapper, map page 5 to frame 7 writable;
translation of address `5 * 4096` yields `7 * 4096`, and after `unmap` it
yields `None`. -/
theorem map_to_translate_unmap_witness :
    translate c2State (5 * PAGE_SIZE) = some (7 * PAGE_SIZE) ∧
      ∃ st'', unmap c2State 5 = some st'' ∧ translate st'' (5 * PAGE_SIZE) = none :=
  @map_to_translate_unmap emptyMapper c2State 5 7 EntryFlags.WRITABLE
    ⟨Nat.one_pos, fun _ _ h => nomatch h⟩ (Or.inl (by decide)) rfl rfl

/-! ### Stack-allocator lemmas (C6) -/

theorem indicesNe_of_ne {p q : Nat} (hp : canonicalPage p) (hq : canonicalPage q)
    (hne : p ≠ q) : indicesNe p q := by
  intro hall
  obtain ⟨h4, h3, h2, h1⟩ := hall
  apply hne
  unfold canonicalPage canonicalAddr PAGE_SIZE U64MOD at hp hq
  unfold p4Index at h4
  unfold p3Index at h3
  unfold p2Index at h2
  unfold p1Index at h1
  omega

theorem hugeCalcL2_congr {m m' : PhysMem} {a q : Nat}
    (h3 : m' a (p3Index q) = m a (p3Index q))
    (h2 : ∀ b, nextTableFrame m a (p3Index q) = some b →
      m' b (p2Index q) = m b (p2Index q)) :
    hugeCalcL2 m' a q = hugeCalcL2 m a q := by
  unfold hugeCalcL2
  rw [nextTableFrame_congr h3]
  rcases k : nextTableFrame m a (p3Index q) with _ | b
  · rfl
  · simp only
    rw [h2 b k]

theorem hugeCalc_congr {m m' : PhysMem} {q : Nat} {o : Option Nat}
    (h3 : ∀ a, o = some a → m' a (p3Index q) = m a (p3Index q))
    (h2 : ∀ a b, o = some a → nextTableFrame m a (p3Index q) = some b →
      m' b (p2Index q) = m b (p2Index q)) :
    hugeCalc m' o q = hugeCalc m o q := by
  rcases o with _ | a
  · rfl
  · unfold hugeCalc
    simp only
    rw [h3 a rfl]
    rcases kp : (m a (p3Index q)).pointedFrame with _ | sf
    · simp only
      exact hugeCalcL2_congr (h3 a rfl) (fun b => h2 a b rfl)
    · simp only
      split
      · rfl
      · exact hugeCalcL2_congr (h3 a rfl) (fun b => h2 a b rfl)

theorem translatePage_congr {st st' : Mapper} {q : Nat}
    (hp4 : st'.p4 = st.p4)
    (h4 : st'.mem st.p4 (p4Index q) = st.mem st.p4 (p4Index q))
    (h3 : ∀ a, nextTableFrame st.mem st.p4 (p4Index q) = some a →
      st'.mem a (p3Index q) = st.mem a (p3Index q))
    (h2 : ∀ a b, nextTableFrame st.mem st.p4 (p4Index q) = some a →
      nextTableFrame st.mem a (p3Index q) = some b →
      st'.mem b (p2Index q) = st.mem b (p2Index q))
    (h1 : ∀ a b c, nextTableFrame st.mem st.p4 (p4Index q) = some a →
      nextTableFrame st.mem a (p3Index q) = some b →
      nextTableFrame st.mem b (p2Index q) = some c →
      st'.mem c (p1Index q) = st.mem c (p1Index q)) :
    translatePage st' q = translatePage st q := by
  have e4 : nextTableFrame st'.mem st'.p4 (p4Index q) =
      nextTableFrame st.mem st.p4 (p4Index q) := by
    rw [hp4]
    exact nextTableFrame_congr h4
  have ehc : hugeCalc st'.mem (nextTableFrame st.mem st.p4 (p4Index q)) q =
      hugeCalc st.mem (nextTableFrame st.mem st.p4 (p4Index q)) q :=
    hugeCalc_congr (fun a ka => h3 a ka) (fun a b ka kb => h2 a b ka kb)
  unfold translatePage
  rw [e4]
  rcases k4 : nextTableFrame st.mem st.p4 (p4Index q) with _ | a
  · rfl
  · rw [k4] at ehc
    simp only [Option.some_bind]
    rw [nextTableFrame_congr (h3 a k4)]
    rcases k3 : nextTableFrame st.mem a (p3Index q) with _ | b
    · simp only [Option.none_bind]
      exact ehc
    · simp only [Option.some_bind]
      rw [nextTableFrame_congr (h2 a b k4 k3)]
      rcases k2 : nextTableFrame st.mem b (p2Index q) with _ | c
      · simp only [Option.none_bind]
        exact ehc
      · simp only [Option.some_bind]
        rw [h1 a b c k4 k3 k2]
        rcases kp : (st.mem c (p1Index q)).pointedFrame with _ | r
        · simp only
          exact ehc
        · rfl

theorem translatePage_none_l3 {st : Mapper} {q a : Nat}
    (w : nextTableFrame st.mem st.p4 (p4Index q) = some a)
    (hu : st.mem a (p3Index q) = Entry.unused) : translatePage st q = none := by
  have hn : nextTableFrame st.mem a (p3Index q) = none := by
    unfold nextTableFrame
    rw [hu]
    rfl
  have hpf : (st.mem a (p3Index q)).pointedFrame = none := by
    rw [hu]
    rfl
  unfold translatePage
  rw [w]
  simp only [Option.some_bind]
  rw [hn]
  simp only [Option.none_bind]
  unfold hugeCalc
  simp only
  rw [hpf]
  simp only
  unfold hugeCalcL2
  rw [hn]

theorem translatePage_none_l2 {st : Mapper} {q a b : Nat}
    (w4 : nextTableFrame st.mem st.p4 (p4Index q) = some a)
    (w3 : nextTableFrame st.mem a (p3Index q) = some b)
    (hu : st.mem b (p2Index q) = Entry.unused) : translatePage st q = none := by
  obtain ⟨hp3, hh3, _⟩ := nextTableFrame_inv w3
  have hn : nextTableFrame st.mem b (p2Index q) = none := by
    unfold nextTableFrame
    rw [hu]
    rfl
  have hpf3 : (st.mem a (p3Index q)).pointedFrame = some (st.mem a (p3Index q)).frame := by
    unfold Entry.pointedFrame
    rw [hp3]
    rfl
  have hpf2 : (st.mem b (p2Index q)).pointedFrame = none := by
    rw [hu]
    rfl
  unfold translatePage
  rw [w4]
  simp only [Option.some_bind]
  rw [w3]
  simp only [Option.some_bind]
  rw [hn]
  simp only [Option.none_bind]
  unfold hugeCalc
  simp only
  rw [hpf3]
  simp only [hh3, Bool.false_eq_true, if_false]
  unfold hugeCalcL2
  rw [w3]
  simp only
  rw [hpf2]

theorem mapPage_spec {st st' : Mapper} {p : Nat} {fl : EntryFlags}
    (hfb : FrameBound st) (h : mapPage st p fl = some st') :
    ∃ f3 f2 f1,
      MapToFacts { st with next := st.next + 1 } st' p st.next fl f3 f2 f1 := by
  unfold mapPage at h
  simp only at h
  refine mapTo_spec ⟨?_, ?_⟩ h
  · exact Nat.lt_succ_of_lt hfb.1
  · intro tf i hp
    exact Nat.lt_succ_of_lt (hfb.2 tf i hp)

theorem nextTableFrame_of {m : PhysMem} {t j : Nat}
    (h1 : (m t j).flags.present = true) (h2 : (m t j).flags.huge = false) :
    nextTableFrame m t j = some (m t j).frame := by
  unfold nextTableFrame
  rw [h1, h2]
  simp

theorem mapPage_translatePage_none {st st' : Mapper} {p : Nat} {fl : EntryFlags}
    {lvl : Nat → Nat} (hfb : FrameBound st) (hg : GoodTables st lvl)
    (h : mapPage st p fl = some st') {q : Nat} (hne : indicesNe p q)
    (hq : translatePage st q = none) : translatePage st' q = none := by
  obtain ⟨f3, f2, f1, mf⟩ := mapPage_spec hfb h
  obtain ⟨hlp4, hedge, hinj⟩ := hg
  have hp4N : st.p4 < st.next := hfb.1
  have hp4' : st'.p4 = st.p4 := mf.p4eq
  obtain ⟨w4, w3, w2⟩ := mf.walk
  rw [hp4'] at w4
  have hUnch : ∀ a j, a < st.next →
      (a ≠ st.p4 ∨ j ≠ p4Index p) → (a ≠ f3 ∨ j ≠ p3Index p) →
      (a ≠ f2 ∨ j ≠ p2Index p) → (a ≠ f1 ∨ j ≠ p1Index p) →
      st'.mem a j = st.mem a j := by
    intro a j ha n4 n3 n2 n1
    by_contra hc
    rcases mf.delta a j hc with h' | h' | h' | h' | h'
    · rcases n4 with hx | hx
      · exact hx h'.1
      · exact hx h'.2
    · rcases n3 with hx | hx
      · exact hx h'.1
      · exact hx h'.2
    · rcases n2 with hx | hx
      · exact hx h'.1
      · exact hx h'.2
    · rcases n1 with hx | hx
      · exact hx h'.1
      · exact hx h'.2
    · have h'' : st.next + 1 ≤ a := h'
      omega
  have hold3 : f3 ≤ st.next →
      (st.mem st.p4 (p4Index p)).flags.present = true ∧
      (st.mem st.p4 (p4Index p)).flags.huge = false ∧
      (st.mem st.p4 (p4Index p)).frame = f3 ∧ f3 < st.next ∧ lvl f3 = 3 := by
    intro hle
    have hchg : st'.mem st.p4 (p4Index p) = st.mem st.p4 (p4Index p) := by
      by_contra hc
      have hx : st.next + 1 ≤ f3 := mf.new3 hc
      omega
    obtain ⟨hpr, hhg, hfr⟩ := nextTableFrame_inv w4
    rw [hchg] at hpr hhg hfr
    have hlt : f3 < st.next := by
      have := hfb.2 st.p4 (p4Index p) hpr
      omega
    have hlv := (hedge st.p4 (p4Index p) hp4N (by rw [hlp4]; omega) hpr).2.1
    rw [hfr, hlp4] at hlv
    exact ⟨hpr, hhg, hfr, hlt, by omega⟩
  have hold2 : f2 ≤ st.next →
      f3 < st.next ∧ (st.mem f3 (p3Index p)).flags.present = true ∧
      (st.mem f3 (p3Index p)).flags.huge = false ∧
      (st.mem f3 (p3Index p)).frame = f2 ∧ f2 < st.next ∧ lvl f2 = 2 := by
    intro hle
    have h3le : f3 ≤ st.next := by
      by_contra hc
      have hx : st.next + 1 ≤ f2 := mf.chain32 (by
        show st.next + 1 ≤ f3
        omega)
      omega
    obtain ⟨_, _, _, h3lt, h3lvl⟩ := hold3 h3le
    have hchg : st'.mem f3 (p3Index p) = st.mem f3 (p3Index p) := by
      by_contra hc
      have hx : st.next + 1 ≤ f2 := mf.new2 hc
      omega
    obtain ⟨hpr, hhg, hfr⟩ := nextTableFrame_inv w3
    rw [hchg] at hpr hhg hfr
    have hlt : f2 < st.next := by
      have := hfb.2 f3 (p3Index p) hpr
      omega
    have hlv := (hedge f3 (p3Index p) h3lt (by omega) hpr).2.1
    rw [hfr] at hlv
    exact ⟨h3lt, hpr, hhg, hfr, hlt, by omega⟩
  have hold1 : f1 ≤ st.next →
      f2 < st.next ∧ (st.mem f2 (p2Index p)).flags.present = true ∧
      (st.mem f2 (p2Index p)).flags.huge = false ∧
      (st.mem f2 (p2Index p)).frame = f1 ∧ f1 < st.next ∧ lvl f1 = 1 := by
    intro hle
    have h2le : f2 ≤ st.next := by
      by_contra hc
      have hx : st.next + 1 ≤ f1 := mf.chain21 (by
        show st.next + 1 ≤ f2
        omega)
      omega
    obtain ⟨h3lt, _, _, _, h2lt, h2lvl⟩ := hold2 h2le
    have hchg : st'.mem f2 (p2Index p) = st.mem f2 (p2Index p) := by
      by_contra hc
      have hx : st.next + 1 ≤ f1 := mf.new1 hc
      omega
    obtain ⟨hpr, hhg, hfr⟩ := nextTableFrame_inv w2
    rw [hchg] at hpr hhg hfr
    have hlt : f1 < st.next := by
      have := hfb.2 f2 (p2Index p) hpr
      omega
    have hlv := (hedge f2 (p2Index p) h2lt (by omega) hpr).2.1
    rw [hfr] at hlv
    exact ⟨h2lt, hpr, hhg, hfr, hlt, by omega⟩
  have hne_p4 : ∀ a, lvl a ≠ 4 → a ≠ st.p4 := by
    intro a hl he
    rw [he, hlp4] at hl
    exact hl rfl
  have hne_f3 : ∀ a, a < st.next → lvl a ≠ 3 → a ≠ f3 := by
    intro a ha hl he
    subst he
    exact hl (hold3 (by omega)).2.2.2.2
  have hne_f2 : ∀ a, a < st.next → lvl a ≠ 2 → a ≠ f2 := by
    intro a ha hl he
    subst he
    exact hl (hold2 (by omega)).2.2.2.2.2
  have hne_f1 : ∀ a, a < st.next → lvl a ≠ 1 → a ≠ f1 := by
    intro a ha hl he
    subst he
    exact hl (hold1 (by omega)).2.2.2.2.2
  have htgt : ∀ a j a' j', a < st.next → a' < st.next → 1 ≤ lvl a → 1 ≤ lvl a' →
      (st.mem a j).flags.present = true → (st.mem a' j').flags.present = true →
      ¬(a = a' ∧ j = j') → (st.mem a j).frame ≠ (st.mem a' j').frame := by
    intro a j a' j' ha ha' hla hla' hpa hpa' hpos hfr
    exact hpos (hinj a j a' j' ha ha' hla hla' hpa hpa' hfr)
  have hread : ∀ t j a, t < st.next → 1 ≤ lvl t →
      nextTableFrame st.mem t j = some a →
      (st.mem t j).flags.present = true ∧ (st.mem t j).frame = a ∧
        a < st.next ∧ lvl a = lvl t - 1 := by
    intro t j a ht hl hk
    obtain ⟨hpr, hhg, hfr⟩ := nextTableFrame_inv hk
    have hb := hfb.2 t j hpr
    have hlv := (hedge t j ht hl hpr).2.1
    rw [hfr] at hlv
    exact ⟨hpr, hfr, by omega, hlv⟩
  have hne3' : ∀ t j a, t < st.next → 1 ≤ lvl t → nextTableFrame st.mem t j = some a →
      ¬(t = st.p4 ∧ j = p4Index p) → a ≠ f3 := by
    intro t j a ht hl hk hpos
    obtain ⟨hpra, hfra, halt, _⟩ := hread t j a ht hl hk
    by_cases hf : st.next + 1 ≤ f3
    · omega
    · obtain ⟨hpr4, _, hfr4, _, _⟩ := hold3 (by omega)
      have := htgt t j st.p4 (p4Index p) ht hp4N hl (by rw [hlp4]; omega) hpra hpr4 hpos
      rw [hfra, hfr4] at this
      exact this
  have hne2' : ∀ t j a, t < st.next → 1 ≤ lvl t → nextTableFrame st.mem t j = some a →
      ¬(t = f3 ∧ j = p3Index p) → a ≠ f2 := by
    intro t j a ht hl hk hpos
    obtain ⟨hpra, hfra, halt, _⟩ := hread t j a ht hl hk
    by_cases hf : st.next + 1 ≤ f2
    · omega
    · obtain ⟨h3lt, hpr3, _, hfr3, _, h3lvl⟩ := hold2 (by omega)
      have := htgt t j f3 (p3Index p) ht h3lt hl (by omega) hpra hpr3 hpos
      rw [hfra, hfr3] at this
      exact this
  have hne1' : ∀ t j a, t < st.next → 1 ≤ lvl t → nextTableFrame st.mem t j = some a →
      ¬(t = f2 ∧ j = p2Index p) → a ≠ f1 := by
    intro t j a ht hl hk hpos
    obtain ⟨hpra, hfra, halt, _⟩ := hread t j a ht hl hk
    by_cases hf : st.next + 1 ≤ f1
    · omega
    · obtain ⟨h2lt, hpr2, _, hfr2, _, h2lvl⟩ := hold1 (by omega)
      have := htgt t j f2 (p2Index p) ht h2lt hl (by omega) hpra hpr2 hpos
      rw [hfra, hfr2] at this
      exact this
  by_cases c4 : p4Index q = p4Index p
  · by_cases c3 : p3Index q = p3Index p
    · by_cases c2 : p2Index q = p2Index p
      · have c1 : p1Index q ≠ p1Index p := by
          intro hc
          exact hne ⟨c4.symm, c3.symm, c2.symm, hc.symm⟩
        by_cases hf1 : st.next + 1 ≤ f1
        · have hu : st'.mem f1 (p1Index q) = Entry.unused := mf.fresh1 hf1 _ c1
          have w4q : nextTableFrame st'.mem st'.p4 (p4Index q) = some f3 := by
            rw [hp4', c4]
            exact w4
          have w3q : nextTableFrame st'.mem f3 (p3Index q) = some f2 := by
            rw [c3]
            exact w3
          have w2q : nextTableFrame st'.mem f2 (p2Index q) = some f1 := by
            rw [c2]
            exact w2
          exact translatePage_none_of_unused ⟨w4q, w3q, w2q⟩ hu
        · obtain ⟨h2lt, hpr2, hhg2, hfr2, h1lt, h1lvl⟩ := hold1 (by omega)
          obtain ⟨h3lt, hpr3, hhg3, hfr3, _, h2lvl⟩ := hold2 (by omega)
          obtain ⟨hpr4, hhg4, hfr4, _, h3lvl⟩ := hold3 (by omega)
          have hc4 : st'.mem st.p4 (p4Index p) = st.mem st.p4 (p4Index p) := by
            by_contra hcc
            have hx : st.next + 1 ≤ f3 := mf.new3 hcc
            omega
          have hc3 : st'.mem f3 (p3Index p) = st.mem f3 (p3Index p) := by
            by_contra hcc
            have hx : st.next + 1 ≤ f2 := mf.new2 hcc
            omega
          have hc2 : st'.mem f2 (p2Index p) = st.mem f2 (p2Index p) := by
            by_contra hcc
            have hx : st.next + 1 ≤ f1 := mf.new1 hcc
            omega
          have s4 : nextTableFrame st.mem st.p4 (p4Index q) = some f3 := by
            rw [c4, nextTableFrame_of hpr4 hhg4, hfr4]
          have s3 : nextTableFrame st.mem f3 (p3Index q) = some f2 := by
            rw [c3, nextTableFrame_of hpr3 hhg3, hfr3]
          have s2 : nextTableFrame st.mem f2 (p2Index q) = some f1 := by
            rw [c2, nextTableFrame_of hpr2 hhg2, hfr2]
          have hcongr : translatePage st' q = translatePage st q := by
            apply translatePage_congr hp4'
            · rw [c4]
              exact hc4
            · intro a ka
              have haf : f3 = a := Option.some.inj (s4.symm.trans ka)
              subst haf
              rw [c3]
              exact hc3
            · intro a b ka kb
              have haf : f3 = a := Option.some.inj (s4.symm.trans ka)
              subst haf
              have hbf : f2 = b := Option.some.inj (s3.symm.trans kb)
              subst hbf
              rw [c2]
              exact hc2
            · intro a b c ka kb kc
              have haf : f3 = a := Option.some.inj (s4.symm.trans ka)
              subst haf
              have hbf : f2 = b := Option.some.inj (s3.symm.trans kb)
              subst hbf
              have hcf : f1 = c := Option.some.inj (s2.symm.trans kc)
              subst hcf
              exact hUnch f1 _ h1lt (Or.inl (hne_p4 f1 (by omega)))
                (Or.inl (hne_f3 f1 h1lt (by omega)))
                (Or.inl (hne_f2 f1 h1lt (by omega))) (Or.inr c1)
          exact hcongr.trans hq
      · by_cases hf2 : st.next + 1 ≤ f2
        · have hu : st'.mem f2 (p2Index q) = Entry.unused := mf.fresh2 hf2 _ c2
          have w4q : nextTableFrame st'.mem st'.p4 (p4Index q) = some f3 := by
            rw [hp4', c4]
            exact w4
          have w3q : nextTableFrame st'.mem f3 (p3Index q) = some f2 := by
            rw [c3]
            exact w3
          exact translatePage_none_l2 w4q w3q hu
        · obtain ⟨h3lt, hpr3, hhg3, hfr3, h2lt, h2lvl⟩ := hold2 (by omega)
          obtain ⟨hpr4, hhg4, hfr4, _, h3lvl⟩ := hold3 (by omega)
          have hc4 : st'.mem st.p4 (p4Index p) = st.mem st.p4 (p4Index p) := by
            by_contra hcc
            have hx : st.next + 1 ≤ f3 := mf.new3 hcc
            omega
          have hc3 : st'.mem f3 (p3Index p) = st.mem f3 (p3Index p) := by
            by_contra hcc
            have hx : st.next + 1 ≤ f2 := mf.new2 hcc
            omega
          have s4 : nextTableFrame st.mem st.p4 (p4Index q) = some f3 := by
            rw [c4, nextTableFrame_of hpr4 hhg4, hfr4]
          have s3 : nextTableFrame st.mem f3 (p3Index q) = some f2 := by
            rw [c3, nextTableFrame_of hpr3 hhg3, hfr3]
          have hx2 : st'.mem f2 (p2Index q) = st.mem f2 (p2Index q) :=
            hUnch f2 _ h2lt (Or.inl (hne_p4 f2 (by omega)))
              (Or.inl (hne_f3 f2 h2lt (by omega))) (Or.inr c2)
              (Or.inl (hne_f1 f2 h2lt (by omega)))
          have hcongr : translatePage st' q = translatePage st q := by
            apply translatePage_congr hp4'
            · rw [c4]
              exact hc4
            · intro a ka
              have haf : f3 = a := Option.some.inj (s4.symm.trans ka)
              subst haf
              rw [c3]
              exact hc3
            · intro a b ka kb
              have haf : f3 = a := Option.some.inj (s4.symm.trans ka)
              subst haf
              have hbf : f2 = b := Option.some.inj (s3.symm.trans kb)
              subst hbf
              exact hx2
            · intro a b c ka kb kc
              have haf : f3 = a := Option.some.inj (s4.symm.trans ka)
              subst haf
              have hbf : f2 = b := Option.some.inj (s3.symm.trans kb)
              subst hbf
              obtain ⟨hprc, hfrc, hclt, hclvl⟩ :=
                hread f2 (p2Index q) c h2lt (by omega) kc
              exact hUnch c _ hclt (Or.inl (hne_p4 c (by omega)))
                (Or.inl (hne_f3 c hclt (by omega)))
                (Or.inl (hne_f2 c hclt (by omega)))
                (Or.inl (hne1' f2 (p2Index q) c h2lt (by omega) kc
                  (fun hpos => c2 hpos.2)))
          exact hcongr.trans hq
    · by_cases hf3 : st.next + 1 ≤ f3
      · have hu : st'.mem f3 (p3Index q) = Entry.unused := mf.fresh3 hf3 _ c3
        have w4q : nextTableFrame st'.mem st'.p4 (p4Index q) = some f3 := by
          rw [hp4', c4]
          exact w4
        exact translatePage_none_l3 w4q hu
      · obtain ⟨hpr4, hhg4, hfr4, h3lt, h3lvl⟩ := hold3 (by omega)
        have hc4 : st'.mem st.p4 (p4Index p) = st.mem st.p4 (p4Index p) := by
          by_contra hcc
          have hx : st.next + 1 ≤ f3 := mf.new3 hcc
          omega
        have s4 : nextTableFrame st.mem st.p4 (p4Index q) = some f3 := by
          rw [c4, nextTableFrame_of hpr4 hhg4, hfr4]
        have hx3 : st'.mem f3 (p3Index q) = st.mem f3 (p3Index q) :=
          hUnch f3 _ h3lt (Or.inl (hne_p4 f3 (by omega))) (Or.inr c3)
            (Or.inl (hne_f2 f3 h3lt (by omega)))
            (Or.inl (hne_f1 f3 h3lt (by omega)))
        have hcongr : translatePage st' q = translatePage st q := by
          apply translatePage_congr hp4'
          · rw [c4]
            exact hc4
          · intro a ka
            have haf : f3 = a := Option.some.inj (s4.symm.trans ka)
            subst haf
            exact hx3
          · intro a b ka kb
            have haf : f3 = a := Option.some.inj (s4.symm.trans ka)
            subst haf
            obtain ⟨hprb, hfrb, hblt, hblvl⟩ :=
              hread f3 (p3Index q) b h3lt (by omega) kb
            exact hUnch b _ hblt (Or.inl (hne_p4 b (by omega)))
              (Or.inl (hne_f3 b hblt (by omega)))
              (Or.inl (hne2' f3 (p3Index q) b h3lt (by omega) kb
                (fun hpos => c3 hpos.2)))
              (Or.inl (hne_f1 b hblt (by omega)))
          · intro a b c ka kb kc
            have haf : f3 = a := Option.some.inj (s4.symm.trans ka)
            subst haf
            obtain ⟨hprb, hfrb, hblt, hblvl⟩ :=
              hread f3 (p3Index q) b h3lt (by omega) kb
            have hbne : b ≠ f2 :=
              hne2' f3 (p3Index q) b h3lt (by omega) kb (fun hpos => c3 hpos.2)
            obtain ⟨hprc, hfrc, hclt, hclvl⟩ :=
              hread b (p2Index q) c hblt (by omega) kc
            exact hUnch c _ hclt (Or.inl (hne_p4 c (by omega)))
              (Or.inl (hne_f3 c hclt (by omega)))
              (Or.inl (hne_f2 c hclt (by omega)))
              (Or.inl (hne1' b (p2Index q) c hblt (by omega) kc
                (fun hpos => hbne hpos.1)))
        exact hcongr.trans hq
  · have hx4 : st'.mem st.p4 (p4Index q) = st.mem st.p4 (p4Index q) :=
      hUnch st.p4 _ hp4N (Or.inr c4)
        (Or.inl (hne_f3 st.p4 hp4N (by rw [hlp4]; omega)))
        (Or.inl (hne_f2 st.p4 hp4N (by rw [hlp4]; omega)))
        (Or.inl (hne_f1 st.p4 hp4N (by rw [hlp4]; omega)))
    have hcongr : translatePage st' q = translatePage st q := by
      apply translatePage_congr hp4'
      · exact hx4
      · intro a ka
        obtain ⟨hpra, hfra, halt, halvl⟩ :=
          hread st.p4 (p4Index q) a hp4N (by rw [hlp4]; omega) ka
        exact hUnch a _ halt (Or.inl (hne_p4 a (by rw [hlp4] at halvl; omega)))
          (Or.inl (hne3' st.p4 (p4Index q) a hp4N (by rw [hlp4]; omega) ka
            (fun hpos => c4 hpos.2)))
          (Or.inl (hne_f2 a halt (by rw [hlp4] at halvl; omega)))
          (Or.inl (hne_f1 a halt (by rw [hlp4] at halvl; omega)))
      · intro a b ka kb
        obtain ⟨hpra, hfra, halt, halvl⟩ :=
          hread st.p4 (p4Index q) a hp4N (by rw [hlp4]; omega) ka
        have hane : a ≠ f3 :=
          hne3' st.p4 (p4Index q) a hp4N (by rw [hlp4]; omega) ka
            (fun hpos => c4 hpos.2)
        rw [hlp4] at halvl
        obtain ⟨hprb, hfrb, hblt, hblvl⟩ :=
          hread a (p3Index q) b halt (by omega) kb
        exact hUnch b _ hblt (Or.inl (hne_p4 b (by omega)))
          (Or.inl (hne_f3 b hblt (by omega)))
          (Or.inl (hne2' a (p3Index q) b halt (by omega) kb
            (fun hpos => hane hpos.1)))
          (Or.inl (hne_f1 b hblt (by omega)))
      · intro a b c ka kb kc
        obtain ⟨hpra, hfra, halt, halvl⟩ :=
          hread st.p4 (p4Index q) a hp4N (by rw [hlp4]; omega) ka
        have hane : a ≠ f3 :=
          hne3' st.p4 (p4Index q) a hp4N (by rw [hlp4]; omega) ka
            (fun hpos => c4 hpos.2)
        rw [hlp4] at halvl
        obtain ⟨hprb, hfrb, hblt, hblvl⟩ :=
          hread a (p3Index q) b halt (by omega) kb
        have hbne : b ≠ f2 :=
          hne2' a (p3Index q) b halt (by omega) kb (fun hpos => hane hpos.1)
        obtain ⟨hprc, hfrc, hclt, hclvl⟩ :=
          hread b (p2Index q) c hblt (by omega) kc
        exact hUnch c _ hclt (Or.inl (hne_p4 c (by omega)))
          (Or.inl (hne_f3 c hclt (by omega)))
          (Or.inl (hne_f2 c hclt (by omega)))
          (Or.inl (hne1' b (p2Index q) c hblt (by omega) kc
            (fun hpos => hbne hpos.1)))
    exact hcongr.trans hq

theorem mapPage_preserves_good {st st' : Mapper} {p : Nat} {fl : EntryFlags}
    {lvl : Nat → Nat} (hfb : FrameBound st) (hg : GoodTables st lvl)
    (hfl : fl.huge = false) (h : mapPage st p fl = some st') :
    FrameBound st' ∧ ∃ lvl', GoodTables st' lvl' := by
  obtain ⟨f3, f2, f1, mf⟩ := mapPage_spec hfb h
  obtain ⟨hlp4, hedge, hinj⟩ := hg
  have hp4N : st.p4 < st.next := hfb.1
  have hp4' : st'.p4 = st.p4 := mf.p4eq
  obtain ⟨w4, w3, w2⟩ := mf.walk
  rw [hp4'] at w4
  have hmono : st.next + 1 ≤ st'.next := mf.mono
  have hfb' : FrameBound st' := mf.bound (by
    show st.next < st.next + 1
    omega)
  refine ⟨hfb', ?_⟩
  have hUnch : ∀ a j, a < st.next →
      ¬(a = st.p4 ∧ j = p4Index p) → ¬(a = f3 ∧ j = p3Index p) →
      ¬(a = f2 ∧ j = p2Index p) → ¬(a = f1 ∧ j = p1Index p) →
      st'.mem a j = st.mem a j := by
    intro a j ha n4 n3 n2 n1
    by_contra hc
    rcases mf.delta a j hc with h' | h' | h' | h' | h'
    · exact n4 h'
    · exact n3 h'
    · exact n2 h'
    · exact n1 h'
    · have h'' : st.next + 1 ≤ a := h'
      omega
  have hold3 : f3 ≤ st.next →
      (st.mem st.p4 (p4Index p)).flags.present = true ∧
      (st.mem st.p4 (p4Index p)).flags.huge = false ∧
      (st.mem st.p4 (p4Index p)).frame = f3 ∧ f3 < st.next ∧ lvl f3 = 3 := by
    intro hle
    have hchg : st'.mem st.p4 (p4Index p) = st.mem st.p4 (p4Index p) := by
      by_contra hc
      have hx : st.next + 1 ≤ f3 := mf.new3 hc
      omega
    obtain ⟨hpr, hhg, hfr⟩ := nextTableFrame_inv w4
    rw [hchg] at hpr hhg hfr
    have hlt : f3 < st.next := by
      have := hfb.2 st.p4 (p4Index p) hpr
      omega
    have hlv := (hedge st.p4 (p4Index p) hp4N (by rw [hlp4]; omega) hpr).2.1
    rw [hfr, hlp4] at hlv
    exact ⟨hpr, hhg, hfr, hlt, by omega⟩
  have hold2 : f2 ≤ st.next →
      f3 < st.next ∧ (st.mem f3 (p3Index p)).flags.present = true ∧
      (st.mem f3 (p3Index p)).flags.huge = false ∧
      (st.mem f3 (p3Index p)).frame = f2 ∧ f2 < st.next ∧ lvl f2 = 2 := by
    intro hle
    have h3le : f3 ≤ st.next := by
      by_contra hc
      have hx : st.next + 1 ≤ f2 := mf.chain32 (by
        show st.next + 1 ≤ f3
        omega)
      omega
    obtain ⟨_, _, _, h3lt, h3lvl⟩ := hold3 h3le
    have hchg : st'.mem f3 (p3Index p) = st.mem f3 (p3Index p) := by
      by_contra hc
      have hx : st.next + 1 ≤ f2 := mf.new2 hc
      omega
    obtain ⟨hpr, hhg, hfr⟩ := nextTableFrame_inv w3
    rw [hchg] at hpr hhg hfr
    have hlt : f2 < st.next := by
      have := hfb.2 f3 (p3Index p) hpr
      omega
    have hlv := (hedge f3 (p3Index p) h3lt (by omega) hpr).2.1
    rw [hfr] at hlv
    exact ⟨h3lt, hpr, hhg, hfr, hlt, by omega⟩
  have hold1 : f1 ≤ st.next →
      f2 < st.next ∧ (st.mem f2 (p2Index p)).flags.present = true ∧
      (st.mem f2 (p2Index p)).flags.huge = false ∧
      (st.mem f2 (p2Index p)).frame = f1 ∧ f1 < st.next ∧ lvl f1 = 1 := by
    intro hle
    have h2le : f2 ≤ st.next := by
      by_contra hc
      have hx : st.next + 1 ≤ f1 := mf.chain21 (by
        show st.next + 1 ≤ f2
        omega)
      omega
    obtain ⟨h3lt, _, _, _, h2lt, h2lvl⟩ := hold2 h2le
    have hchg : st'.mem f2 (p2Index p) = st.mem f2 (p2Index p) := by
      by_contra hc
      have hx : st.next + 1 ≤ f1 := mf.new1 hc
      omega
    obtain ⟨hpr, hhg, hfr⟩ := nextTableFrame_inv w2
    rw [hchg] at hpr hhg hfr
    have hlt : f1 < st.next := by
      have := hfb.2 f2 (p2Index p) hpr
      omega
    have hlv := (hedge f2 (p2Index p) h2lt (by omega) hpr).2.1
    rw [hfr] at hlv
    exact ⟨h2lt, hpr, hhg, hfr, hlt, by omega⟩
  -- pairwise distinctness of the path tables and the mapped frame
  have d32 : f3 ≠ f2 := by
    by_cases hc2 : st.next + 1 ≤ f2
    · have := mf.ord32 (by
        show st.next + 1 ≤ f2
        omega)
      omega
    · by_cases hc3 : st.next + 1 ≤ f3
      · have := mf.chain32 (by
          show st.next + 1 ≤ f3
          omega)
        omega
      · obtain ⟨_, _, _, _, h3lvl⟩ := hold3 (by omega)
        obtain ⟨_, _, _, _, _, h2lvl⟩ := hold2 (by omega)
        intro he
        rw [he, h2lvl] at h3lvl
        omega
  have d21 : f2 ≠ f1 := by
    by_cases hc1 : st.next + 1 ≤ f1
    · have := mf.ord21 (by
        show st.next + 1 ≤ f1
        omega)
      omega
    · by_cases hc2 : st.next + 1 ≤ f2
      · have := mf.chain21 (by
          show st.next + 1 ≤ f2
          omega)
        omega
      · obtain ⟨_, _, _, _, _, h2lvl⟩ := hold2 (by omega)
        obtain ⟨_, _, _, _, _, h1lvl⟩ := hold1 (by omega)
        intro he
        rw [he, h1lvl] at h2lvl
        omega
  have d31 : f3 ≠ f1 := by
    by_cases hc1 : st.next + 1 ≤ f1
    · by_cases hc3 : st.next + 1 ≤ f3
      · have h1 := mf.chain32 (by
          show st.next + 1 ≤ f3
          omega)
        have h2 := mf.ord32 (by
          show st.next + 1 ≤ f2
          exact h1)
        have h3 := mf.ord21 (by
          show st.next + 1 ≤ f1
          omega)
        omega
      · obtain ⟨_, _, _, h3lt, _⟩ := hold3 (by omega)
        omega
    · by_cases hc3 : st.next + 1 ≤ f3
      · obtain ⟨_, _, _, _, h1lt, _⟩ := hold1 (by omega)
        omega
      · obtain ⟨_, _, _, _, h3lvl⟩ := hold3 (by omega)
        obtain ⟨_, _, _, _, _, h1lvl⟩ := hold1 (by omega)
        intro he
        rw [he, h1lvl] at h3lvl
        omega
  have dN3 : f3 ≠ st.next := by
    by_cases hc : st.next + 1 ≤ f3
    · omega
    · obtain ⟨_, _, _, h3lt, _⟩ := hold3 (by omega)
      omega
  have dN2 : f2 ≠ st.next := by
    by_cases hc : st.next + 1 ≤ f2
    · omega
    · obtain ⟨_, _, _, _, h2lt, _⟩ := hold2 (by omega)
      omega
  have dN1 : f1 ≠ st.next := by
    by_cases hc : st.next + 1 ≤ f1
    · omega
    · obtain ⟨_, _, _, _, h1lt, _⟩ := hold1 (by omega)
      omega
  -- the new level assignment
  set lvl' : Nat → Nat := fun a =>
    if a = st.next then 0
    else if st.next + 1 ≤ f3 ∧ a = f3 then 3
    else if st.next + 1 ≤ f2 ∧ a = f2 then 2
    else if st.next + 1 ≤ f1 ∧ a = f1 then 1
    else lvl a with hlvldef
  have hLold : ∀ a, a < st.next → lvl' a = lvl a := by
    intro a ha
    simp only [hlvldef]
    rw [if_neg (by omega)]
    rw [if_neg (by
      rintro ⟨h1, h2⟩
      omega)]
    rw [if_neg (by
      rintro ⟨h1, h2⟩
      omega)]
    rw [if_neg (by
      rintro ⟨h1, h2⟩
      omega)]
  have hLf : lvl' st.next = 0 := by
    simp [hlvldef]
  have hL3 : lvl' f3 = 3 := by
    by_cases hc : st.next + 1 ≤ f3
    · have hne : f3 ≠ st.next := by omega
      simp [hlvldef, hc, hne]
    · obtain ⟨_, _, _, h3lt, h3lvl⟩ := hold3 (by omega)
      rw [hLold f3 h3lt, h3lvl]
  have hL2 : lvl' f2 = 2 := by
    by_cases hc : st.next + 1 ≤ f2
    · have hne : f2 ≠ st.next := by omega
      have hne3 : ¬(st.next + 1 ≤ f3 ∧ f2 = f3) := by
        rintro ⟨h1, h2⟩
        exact d32 h2.symm
      simp [hlvldef, hc, hne, hne3]
    · obtain ⟨_, _, _, _, h2lt, h2lvl⟩ := hold2 (by omega)
      rw [hLold f2 h2lt, h2lvl]
  have hL1 : lvl' f1 = 1 := by
    by_cases hc : st.next + 1 ≤ f1
    · have hne : f1 ≠ st.next := by omega
      have hne3 : ¬(st.next + 1 ≤ f3 ∧ f1 = f3) := by
        rintro ⟨h1, h2⟩
        exact d31 h2.symm
      have hne2 : ¬(st.next + 1 ≤ f2 ∧ f1 = f2) := by
        rintro ⟨h1, h2⟩
        exact d21 h2.symm
      simp [hlvldef, hc, hne, hne3, hne2]
    · obtain ⟨_, _, _, _, h1lt, h1lvl⟩ := hold1 (by omega)
      rw [hLold f1 h1lt, h1lvl]
  have hLp4 : lvl' st.p4 = 4 := by
    rw [hLold st.p4 hp4N, hlp4]
  obtain ⟨hpr4', hhg4', hfr4'⟩ := nextTableFrame_inv w4
  obtain ⟨hpr3', hhg3', hfr3'⟩ := nextTableFrame_inv w3
  obtain ⟨hpr2', hhg2', hfr2'⟩ := nextTableFrame_inv w2
  have hent : st'.mem f1 (p1Index p) = Entry.set st.next (fl.union EntryFlags.PRESENT) :=
    mf.entry
  have hclass : ∀ tf j, tf < st'.next → tf ≠ st.next →
      (st'.mem tf j).flags.present = true →
      (tf < st.next ∧ ¬(tf = st.p4 ∧ j = p4Index p) ∧ ¬(tf = f3 ∧ j = p3Index p) ∧
        ¬(tf = f2 ∧ j = p2Index p) ∧ ¬(tf = f1 ∧ j = p1Index p) ∧
        st'.mem tf j = st.mem tf j) ∨
      (tf = st.p4 ∧ j = p4Index p) ∨ (tf = f3 ∧ j = p3Index p) ∨
      (tf = f2 ∧ j = p2Index p) ∨ (tf = f1 ∧ j = p1Index p) := by
    intro tf j ht htne hpres
    by_cases c4' : tf = st.p4 ∧ j = p4Index p
    · exact Or.inr (Or.inl c4')
    by_cases c3' : tf = f3 ∧ j = p3Index p
    · exact Or.inr (Or.inr (Or.inl c3'))
    by_cases c2' : tf = f2 ∧ j = p2Index p
    · exact Or.inr (Or.inr (Or.inr (Or.inl c2')))
    by_cases c1' : tf = f1 ∧ j = p1Index p
    · exact Or.inr (Or.inr (Or.inr (Or.inr c1')))
    by_cases hlt : tf < st.next
    · exact Or.inl ⟨hlt, c4', c3', c2', c1', hUnch tf j hlt c4' c3' c2' c1'⟩
    · exfalso
      have hge : st.next + 1 ≤ tf := by omega
      rcases mf.freshCover tf hge ht with he | he | he
      · have hj : j ≠ p3Index p := by
          intro hj'
          exact c3' ⟨he, hj'⟩
        have hle : st.next + 1 ≤ f3 := by omega
        have hz := mf.fresh3 hle j hj
        rw [← he] at hz
        rw [hz] at hpres
        simp [Entry.unused] at hpres
      · have hj : j ≠ p2Index p := by
          intro hj'
          exact c2' ⟨he, hj'⟩
        have hle : st.next + 1 ≤ f2 := by omega
        have hz := mf.fresh2 hle j hj
        rw [← he] at hz
        rw [hz] at hpres
        simp [Entry.unused] at hpres
      · have hj : j ≠ p1Index p := by
          intro hj'
          exact c1' ⟨he, hj'⟩
        have hle : st.next + 1 ≤ f1 := by omega
        have hz := mf.fresh1 hle j hj
        rw [← he] at hz
        rw [hz] at hpres
        simp [Entry.unused] at hpres
  have hcol3 : ∀ a j, a < st.next → 1 ≤ lvl a → (st.mem a j).flags.present = true →
      ¬(a = st.p4 ∧ j = p4Index p) → (st.mem a j).frame ≠ f3 := by
    intro a j ha hl hp hpos hfe
    by_cases hc : st.next + 1 ≤ f3
    · have := (hedge a j ha hl hp).1
      omega
    · obtain ⟨hpr4, _, hfr4, _, _⟩ := hold3 (by omega)
      exact hpos (hinj a j st.p4 (p4Index p) ha hp4N hl (by rw [hlp4]; omega) hp hpr4
        (by rw [hfe, hfr4]))
  have hcol2 : ∀ a j, a < st.next → 1 ≤ lvl a → (st.mem a j).flags.present = true →
      ¬(a = f3 ∧ j = p3Index p) → (st.mem a j).frame ≠ f2 := by
    intro a j ha hl hp hpos hfe
    by_cases hc : st.next + 1 ≤ f2
    · have := (hedge a j ha hl hp).1
      omega
    · obtain ⟨h3lt, hpr3, _, hfr3, _, h3lvl⟩ := hold2 (by omega)
      exact hpos (hinj a j f3 (p3Index p) ha h3lt hl (by omega) hp hpr3
        (by rw [hfe, hfr3]))
  have hcol1 : ∀ a j, a < st.next → 1 ≤ lvl a → (st.mem a j).flags.present = true →
      ¬(a = f2 ∧ j = p2Index p) → (st.mem a j).frame ≠ f1 := by
    intro a j ha hl hp hpos hfe
    by_cases hc : st.next + 1 ≤ f1
    · have := (hedge a j ha hl hp).1
      omega
    · obtain ⟨h2lt, hpr2, _, hfr2, _, h2lvl⟩ := hold1 (by omega)
      exact hpos (hinj a j f2 (p2Index p) ha h2lt hl (by omega) hp hpr2
        (by rw [hfe, hfr2]))
  have hcolN : ∀ a j, a < st.next → 1 ≤ lvl a → (st.mem a j).flags.present = true →
      (st.mem a j).frame ≠ st.next := by
    intro a j ha hl hp
    have := (hedge a j ha hl hp).1
    omega
  refine ⟨lvl', ?_, ?_, ?_⟩
  · rw [hp4']
    exact hLp4
  · intro tf j ht hl hpres
    have htne : tf ≠ st.next := by
      intro he
      rw [he, hLf] at hl
      omega
    rcases hclass tf j ht htne hpres with
      ⟨hlt, n4, n3, n2, n1, heq⟩ | ⟨he, hj⟩ | ⟨he, hj⟩ | ⟨he, hj⟩ | ⟨he, hj⟩
    · rw [heq] at hpres ⊢
      have hl' : 1 ≤ lvl tf := by
        rw [hLold tf hlt] at hl
        exact hl
      obtain ⟨hb, hlv, hh⟩ := hedge tf j hlt hl' hpres
      refine ⟨by omega, ?_, hh⟩
      rw [hLold tf hlt, hLold _ hb, hlv]
    · rw [he, hj]
      refine ⟨?_, ?_, hhg4'⟩
      · rw [hfr4']
        exact mf.b3
      · rw [hfr4', hL3, hLp4]
    · rw [he, hj]
      refine ⟨?_, ?_, hhg3'⟩
      · rw [hfr3']
        exact mf.b2
      · rw [hfr3', hL2, hL3]
    · rw [he, hj]
      refine ⟨?_, ?_, hhg2'⟩
      · rw [hfr2']
        exact mf.b1
      · rw [hfr2', hL1, hL2]
    · rw [he, hj, hent]
      refine ⟨?_, ?_, ?_⟩
      · show st.next < st'.next
        omega
      · show lvl' st.next = lvl' f1 - 1
        rw [hLf, hL1]
      · show (fl.union EntryFlags.PRESENT).huge = false
        simp [EntryFlags.union, EntryFlags.PRESENT, hfl]
  · intro tf j tf' j' ht ht' hl hl' hpres hpres' hfr
    have htne : tf ≠ st.next := by
      intro he
      rw [he, hLf] at hl
      omega
    have htne' : tf' ≠ st.next := by
      intro he
      rw [he, hLf] at hl'
      omega
    rcases hclass tf j ht htne hpres with
      ⟨hlt, n4, n3, n2, n1, heq⟩ | ⟨he, hj⟩ | ⟨he, hj⟩ | ⟨he, hj⟩ | ⟨he, hj⟩ <;>
      rcases hclass tf' j' ht' htne' hpres' with
        ⟨hlt', n4', n3', n2', n1', heq'⟩ | ⟨he', hj'⟩ | ⟨he', hj'⟩ | ⟨he', hj'⟩ | ⟨he', hj'⟩
    · -- old / old
      rw [heq] at hpres hfr
      rw [heq'] at hpres' hfr
      have hla : 1 ≤ lvl tf := by
        rw [hLold tf hlt] at hl
        exact hl
      have hlb : 1 ≤ lvl tf' := by
        rw [hLold tf' hlt'] at hl'
        exact hl'
      exact hinj tf j tf' j' hlt hlt' hla hlb hpres hpres' hfr
    · -- old / P4
      exfalso
      rw [heq] at hpres hfr
      rw [he', hj', hfr4'] at hfr
      have hla : 1 ≤ lvl tf := by
        rw [hLold tf hlt] at hl
        exact hl
      exact hcol3 tf j hlt hla hpres n4 hfr
    · -- old / P3
      exfalso
      rw [heq] at hpres hfr
      rw [he', hj', hfr3'] at hfr
      have hla : 1 ≤ lvl tf := by
        rw [hLold tf hlt] at hl
        exact hl
      exact hcol2 tf j hlt hla hpres n3 hfr
    · -- old / P2
      exfalso
      rw [heq] at hpres hfr
      rw [he', hj', hfr2'] at hfr
      have hla : 1 ≤ lvl tf := by
        rw [hLold tf hlt] at hl
        exact hl
      exact hcol1 tf j hlt hla hpres n2 hfr
    · -- old / P1
      exfalso
      rw [heq] at hpres hfr
      rw [he', hj', hent] at hfr
      have hla : 1 ≤ lvl tf := by
        rw [hLold tf hlt] at hl
        exact hl
      exact hcolN tf j hlt hla hpres hfr
    · -- P4 / old
      exfalso
      rw [heq'] at hpres' hfr
      rw [he, hj, hfr4'] at hfr
      have hlb : 1 ≤ lvl tf' := by
        rw [hLold tf' hlt'] at hl'
        exact hl'
      exact hcol3 tf' j' hlt' hlb hpres' n4' hfr.symm
    · -- P4 / P4
      rw [he, he', hj, hj']
      exact ⟨rfl, rfl⟩
    · -- P4 / P3
      exfalso
      rw [he, hj, hfr4'] at hfr
      rw [he', hj', hfr3'] at hfr
      exact d32 hfr
    · -- P4 / P2
      exfalso
      rw [he, hj, hfr4'] at hfr
      rw [he', hj', hfr2'] at hfr
      exact d31 hfr
    · -- P4 / P1
      exfalso
      rw [he, hj, hfr4'] at hfr
      rw [he', hj', hent] at hfr
      exact dN3 hfr
    · -- P3 / old
      exfalso
      rw [heq'] at hpres' hfr
      rw [he, hj, hfr3'] at hfr
      have hlb : 1 ≤ lvl tf' := by
        rw [hLold tf' hlt'] at hl'
        exact hl'
      exact hcol2 tf' j' hlt' hlb hpres' n3' hfr.symm
    · -- P3 / P4
      exfalso
      rw [he, hj, hfr3'] at hfr
      rw [he', hj', hfr4'] at hfr
      exact d32 hfr.symm
    · -- P3 / P3
      rw [he, he', hj, hj']
      exact ⟨rfl, rfl⟩
    · -- P3 / P2
      exfalso
      rw [he, hj, hfr3'] at hfr
      rw [he', hj', hfr2'] at hfr
      exact d21 hfr
    · -- P3 / P1
      exfalso
      rw [he, hj, hfr3'] at hfr
      rw [he', hj', hent] at hfr
      exact dN2 hfr
    · -- P2 / old
      exfalso
      rw [heq'] at hpres' hfr
      rw [he, hj, hfr2'] at hfr
      have hlb : 1 ≤ lvl tf' := by
        rw [hLold tf' hlt'] at hl'
        exact hl'
      exact hcol1 tf' j' hlt' hlb hpres' n2' hfr.symm
    · -- P2 / P4
      exfalso
      rw [he, hj, hfr2'] at hfr
      rw [he', hj', hfr4'] at hfr
      exact d31 hfr.symm
    · -- P2 / P3
      exfalso
      rw [he, hj, hfr2'] at hfr
      rw [he', hj', hfr3'] at hfr
      exact d21 hfr.symm
    · -- P2 / P2
      rw [he, he', hj, hj']
      exact ⟨rfl, rfl⟩
    · -- P2 / P1
      exfalso
      rw [he, hj, hfr2'] at hfr
      rw [he', hj', hent] at hfr
      exact dN1 hfr
    · -- P1 / old
      exfalso
      rw [heq'] at hpres' hfr
      rw [he, hj, hent] at hfr
      have hlb : 1 ≤ lvl tf' := by
        rw [hLold tf' hlt'] at hl'
        exact hl'
      exact hcolN tf' j' hlt' hlb hpres' hfr.symm
    · -- P1 / P4
      exfalso
      rw [he, hj, hent] at hfr
      rw [he', hj', hfr4'] at hfr
      exact dN3 hfr.symm
    · -- P1 / P3
      exfalso
      rw [he, hj, hent] at hfr
      rw [he', hj', hfr3'] at hfr
      exact dN2 hfr.symm
    · -- P1 / P2
      exfalso
      rw [he, hj, hent] at hfr
      rw [he', hj', hfr2'] at hfr
      exact dN1 hfr.symm
    · -- P1 / P1
      rw [he, he', hj, hj']
      exact ⟨rfl, rfl⟩

theorem PageIter.nth_spec : ∀ (k : Nat) (it : PageIter) (v : Nat) (it' : PageIter),
    it.nth k = (some v, it') →
    v = it.start + k ∧ it' = ⟨it.start + k + 1, it.stop⟩ ∧ it.start + k ≤ it.stop := by
  intro k
  induction k with
  | zero =>
    intro it v it' h
    unfold PageIter.nth PageIter.nextPage at h
    split at h
    · rename_i hc
      obtain ⟨h1, h2⟩ := Prod.mk.injEq .. ▸ h
      refine ⟨(Option.some.inj h1).symm, ?_, by omega⟩
      rw [← h2]
    · cases h
  | succ k ih =>
    intro it v it' h
    unfold PageIter.nth at h
    rcases hnp : it.nextPage with ⟨o, it1⟩
    rw [hnp] at h
    unfold PageIter.nextPage at hnp
    split at hnp
    · rename_i hc
      obtain ⟨h1, h2⟩ := Prod.mk.injEq .. ▸ hnp
      rw [← h1] at h
      simp only at h
      obtain ⟨hv, hit, hle⟩ := ih it1 v it' h
      rw [← h2] at hv hit hle
      simp only at hv hit hle
      exact ⟨by omega, by rw [hit]; congr 1; omega, by omega⟩
    · obtain ⟨h1, h2⟩ := Prod.mk.injEq .. ▸ hnp
      rw [← h1] at h
      simp only at h
      cases h

theorem PageIter.nth_none {it : PageIter} (h : ¬it.start ≤ it.stop) :
    ∀ k, it.nth k = (none, it) := by
  intro k
  cases k with
  | zero =>
    unfold PageIter.nth PageIter.nextPage
    rw [if_neg h]
  | succ k =>
    unfold PageIter.nth
    have hnp : it.nextPage = (none, it) := by
      unfold PageIter.nextPage
      rw [if_neg h]
    rw [hnp]

theorem mapPage_retains {st st' : Mapper} {p' : Nat} {fl : EntryFlags}
    (hfb : FrameBound st) (h : mapPage st p' fl = some st') {q : Nat}
    (hm : PageMapped st q) : PageMapped st' q := by
  obtain ⟨g3, g2, g1, gq, ⟨u4, u3, u2⟩, b3, b2, b1, bq, hent⟩ := hm
  obtain ⟨f3, f2, f1, mf⟩ := mapPage_spec hfb h
  have hmono : st.next + 1 ≤ st'.next := mf.mono
  have hp4' : st'.p4 = st.p4 := mf.p4eq
  obtain ⟨hp4e, _, _⟩ := nextTableFrame_inv u4
  obtain ⟨hp3e, _, _⟩ := nextTableFrame_inv u3
  obtain ⟨hp2e, _, _⟩ := nextTableFrame_inv u2
  have hb4 : st.p4 < st.next + 1 := by
    have := hfb.1
    omega
  have hb3 : g3 < st.next + 1 := by omega
  have hb2 : g2 < st.next + 1 := by omega
  have hb1 : g1 < st.next + 1 := by omega
  have e4 : st'.mem st.p4 (p4Index q) = st.mem st.p4 (p4Index q) :=
    mf.pres _ _ hb4 hp4e
  have e3 : st'.mem g3 (p3Index q) = st.mem g3 (p3Index q) :=
    mf.pres _ _ hb3 hp3e
  have e2 : st'.mem g2 (p2Index q) = st.mem g2 (p2Index q) :=
    mf.pres _ _ hb2 hp2e
  have hentp : (st.mem g1 (p1Index q)).flags.present = true := by
    rw [hent]
    simp [Entry.set, EntryFlags.union, EntryFlags.WRITABLE, EntryFlags.PRESENT]
  have e1 : st'.mem g1 (p1Index q) = st.mem g1 (p1Index q) :=
    mf.pres _ _ hb1 hentp
  refine ⟨g3, g2, g1, gq, ⟨?_, ?_, ?_⟩, by omega, by omega, by omega, by omega, ?_⟩
  · rw [hp4', nextTableFrame_congr e4]
    exact u4
  · rw [nextTableFrame_congr e3]
    exact u3
  · rw [nextTableFrame_congr e2]
    exact u2
  · rw [e1]
    exact hent

theorem mapPages_spec : ∀ (l : List Nat) (st st' : Mapper) (lvl : Nat → Nat),
    FrameBound st → GoodTables st lvl → mapPages st l = some st' →
    FrameBound st' ∧ (∃ lvl', GoodTables st' lvl') ∧ st.next ≤ st'.next ∧
      (∀ q, PageMapped st q → PageMapped st' q) ∧
      (∀ q, (∀ p ∈ l, indicesNe p q) → translatePage st q = none →
        translatePage st' q = none) ∧
      (∀ p ∈ l, PageMapped st' p) := by
  intro l
  induction l with
  | nil =>
    intro st st' lvl hfb hg h
    unfold mapPages at h
    obtain rfl := Option.some.inj h
    exact ⟨hfb, ⟨lvl, hg⟩, Nat.le_refl _, fun q hq => hq, fun q _ hq => hq,
      fun p hp => absurd hp (List.not_mem_nil p)⟩
  | cons p rest ih =>
    intro st st' lvl hfb hg h
    unfold mapPages at h
    rcases hmp : mapPage st p EntryFlags.WRITABLE with _ | st1
    · rw [hmp] at h
      cases h
    rw [hmp] at h
    simp only at h
    obtain ⟨hfb1, ⟨lvl1, hg1⟩⟩ := mapPage_preserves_good hfb hg rfl hmp
    obtain ⟨f3, f2, f1, mf⟩ := mapPage_spec hfb hmp
    have hmono1 : st.next + 1 ≤ st1.next := mf.mono
    obtain ⟨hfb', hglv', hmono', hret', hnone', hmapped'⟩ := ih st1 st' lvl1 hfb1 hg1 h
    have hmapped1 : PageMapped st1 p :=
      ⟨f3, f2, f1, st.next, mf.walk, mf.b3, mf.b2, mf.b1, by omega, mf.entry⟩
    refine ⟨hfb', hglv', by omega, ?_, ?_, ?_⟩
    · intro q hq
      exact hret' q (mapPage_retains hfb hmp hq)
    · intro q hql hq
      have h1 : translatePage st1 q = none :=
        mapPage_translatePage_none hfb hg hmp (hql p (List.mem_cons_self p rest)) hq
      exact hnone' q (fun p' hp' => hql p' (List.mem_cons_of_mem p hp')) h1
    · intro p' hp'
      rcases List.mem_cons.mp hp' with rfl | hp''
      · exact hret' p' hmapped1
      · exact hmapped' p' hp''

/-- **C6**: `StackAllocator::alloc_stack(n_pages)` returns `None` for
`n_pages = 0`; every failure leaves the page-table state and the
allocator's page-range cursor unchanged; and a success returns
`Stack { top, bottom }` with `top - bottom = n_pages * 4096`, maps each of
the `n_pages` pages from `bottom` up to `top` with a
`WRITABLE | PRESENT` L1 entry, and leaves the guard page directly below
`bottom` — like every other canonical page outside the mapped range —
untranslated if it was untranslated before. -/
theorem alloc_stack_spec {st : Mapper} {sa : PageIter} {n : Nat} {lvl : Nat → Nat}
    (hfb : FrameBound st) (hg : GoodTables st lvl)
    (hcanon : ∀ r, sa.start ≤ r → r ≤ sa.stop → canonicalPage r) :
    (n = 0 → allocStack st sa n = some (none, st, sa)) ∧
    (∀ st2 sa2, allocStack st sa n = some (none, st2, sa2) → st2 = st ∧ sa2 = sa) ∧
    (∀ s st2 sa2, allocStack st sa n = some (some s, st2, sa2) →
      s.top - s.bottom = n * PAGE_SIZE ∧
      s.bottom = (sa.start + 1) * PAGE_SIZE ∧
      (∀ k, k < n → PageMapped st2 (sa.start + 1 + k)) ∧
      (translatePage st (s.bottom / PAGE_SIZE - 1) = none →
        translatePage st2 (s.bottom / PAGE_SIZE - 1) = none) ∧
      (∀ q, canonicalPage q → (q < sa.start + 1 ∨ sa.start + n < q) →
        translatePage st q = none → translatePage st2 q = none)) := by
  by_cases hn : n = 0
  · subst hn
    have halloc : allocStack st sa 0 = some (none, st, sa) := by
      unfold allocStack
      rw [if_pos rfl]
    refine ⟨fun _ => halloc, ?_, ?_⟩
    · intro st2 sa2 h2
      rw [halloc] at h2
      simp only [Option.some.injEq, Prod.mk.injEq] at h2
      exact ⟨h2.2.1.symm, h2.2.2.symm⟩
    · intro s st2 sa2 h2
      rw [halloc] at h2
      simp at h2
  -- n ≥ 1 below
  have hSucc : ∀ st2, sa.start + n ≤ sa.stop →
      mapPages st (pageRangeInclusive (sa.start + 1) (sa.start + n)) = some st2 →
      (∀ k, k < n → PageMapped st2 (sa.start + 1 + k)) ∧
      (∀ q, canonicalPage q → (q < sa.start + 1 ∨ sa.start + n < q) →
        translatePage st q = none → translatePage st2 q = none) := by
    intro st2 hestop hmp
    have hlen : sa.start + n + 1 - (sa.start + 1) = n := by omega
    have hlist : pageRangeInclusive (sa.start + 1) (sa.start + n) =
        List.range' (sa.start + 1) n := by
      unfold pageRangeInclusive
      rw [hlen]
    rw [hlist] at hmp
    obtain ⟨hfb2, _, _, _, hnone2, hmapped2⟩ :=
      mapPages_spec (List.range' (sa.start + 1) n) st st2 lvl hfb hg hmp
    constructor
    · intro k hk
      exact hmapped2 _ (List.mem_range'_1.mpr ⟨by omega, by omega⟩)
    · intro q hqc hqout hqnone
      refine hnone2 q ?_ hqnone
      intro p' hp'
      obtain ⟨hp1, hp2⟩ := List.mem_range'_1.mp hp'
      have hpc : canonicalPage p' := hcanon p' (by omega) (by omega)
      exact indicesNe_of_ne hpc hqc (by omega)
  by_cases hss : sa.start ≤ sa.stop
  · have h1 : sa.nextPage = (some sa.start, ⟨sa.start + 1, sa.stop⟩) := by
      simp [PageIter.nextPage, hss]
    by_cases hss2 : sa.start + 1 ≤ sa.stop
    · have h2 : (⟨sa.start + 1, sa.stop⟩ : PageIter).nextPage =
          (some (sa.start + 1), ⟨sa.start + 2, sa.stop⟩) := by
        simp [PageIter.nextPage, hss2]
      by_cases hn1 : n = 1
      · -- success with e = sa.start + 1
        subst hn1
        rcases hmp : mapPages st (pageRangeInclusive (sa.start + 1) (sa.start + 1))
          with _ | st2'
        · have halloc : allocStack st sa 1 = none := by
            unfold allocStack
            rw [if_neg hn, h1]
            simp only
            rw [h2]
            simp only
            simp only [if_true]
            rw [hmp]
          refine ⟨fun h0 => absurd h0 hn, ?_, ?_⟩
          · intro st2 sa2 h2'
            rw [halloc] at h2'
            cases h2'
          · intro s st2 sa2 h2'
            rw [halloc] at h2'
            cases h2'
        · have halloc : allocStack st sa 1 =
              some (some ⟨(sa.start + 1) * PAGE_SIZE + PAGE_SIZE,
                (sa.start + 1) * PAGE_SIZE⟩, st2', ⟨sa.start + 2, sa.stop⟩) := by
            unfold allocStack
            rw [if_neg hn, h1]
            simp only
            rw [h2]
            simp only
            simp only [if_true]
            rw [hmp]
            simp only
            rw [if_pos (by
              unfold PAGE_SIZE
              omega)]
          refine ⟨fun h0 => absurd h0 hn, ?_, ?_⟩
          · intro st2 sa2 h2'
            rw [halloc] at h2'
            simp at h2'
          · intro s st2 sa2 h2'
            rw [halloc] at h2'
            simp only [Option.some.injEq, Prod.mk.injEq] at h2'
            obtain ⟨hs, hst, hsa⟩ := h2'
            subst hs
            subst hst
            obtain ⟨hmapped, hpres⟩ := hSucc st2'
              (by omega) (by rw [show sa.start + 1 = sa.start + 1 from rfl]; exact hmp)
            refine ⟨?_, rfl, ?_, ?_, ?_⟩
            · show (sa.start + 1) * PAGE_SIZE + PAGE_SIZE - (sa.start + 1) * PAGE_SIZE =
                1 * PAGE_SIZE
              unfold PAGE_SIZE
              omega
            · intro k hk
              have hk0 : k = 0 := by omega
              subst hk0
              exact hmapped 0 (by omega)
            · have hgq : (sa.start + 1) * PAGE_SIZE / PAGE_SIZE - 1 = sa.start := by
                unfold PAGE_SIZE
                omega
              show translatePage st ((sa.start + 1) * PAGE_SIZE / PAGE_SIZE - 1) = none →
                translatePage st2' ((sa.start + 1) * PAGE_SIZE / PAGE_SIZE - 1) = none
              rw [hgq]
              intro hq0
              exact hpres sa.start (hcanon sa.start (Nat.le_refl _) hss)
                (Or.inl (by omega)) hq0
            · exact hpres
      · -- n ≥ 2 : stack_end comes from nth
        rcases hnth : (⟨sa.start + 2, sa.stop⟩ : PageIter).nth (n - 2) with ⟨eo, it3⟩
        rcases eo with _ | e
        · -- nth ran out : failure, state unchanged
          have halloc : allocStack st sa n = some (none, st, sa) := by
            unfold allocStack
            rw [if_neg hn, h1]
            simp only
            rw [h2]
            simp only
            rw [if_neg hn1, hnth]
          refine ⟨fun h0 => absurd h0 hn, ?_, ?_⟩
          · intro st2 sa2 h2'
            rw [halloc] at h2'
            simp only [Option.some.injEq, Prod.mk.injEq] at h2'
            exact ⟨h2'.2.1.symm, h2'.2.2.symm⟩
          · intro s st2 sa2 h2'
            rw [halloc] at h2'
            simp at h2'
        · obtain ⟨hev, hit3, hestop⟩ := PageIter.nth_spec (n - 2) _ e it3 hnth
          have hev' : e = sa.start + n := by
            simp only at hev
            omega
          have hestop' : sa.start + n ≤ sa.stop := by
            simp only at hestop
            omega
          subst hev'
          rcases hmp : mapPages st (pageRangeInclusive (sa.start + 1) (sa.start + n))
            with _ | st2'
          · have halloc : allocStack st sa n = none := by
              unfold allocStack
              rw [if_neg hn, h1]
              simp only
              rw [h2]
              simp only
              rw [if_neg hn1, hnth]
              simp only
              rw [hmp]
            refine ⟨fun h0 => absurd h0 hn, ?_, ?_⟩
            · intro st2 sa2 h2'
              rw [halloc] at h2'
              cases h2'
            · intro s st2 sa2 h2'
              rw [halloc] at h2'
              cases h2'
          · have halloc : allocStack st sa n =
                some (some ⟨(sa.start + n) * PAGE_SIZE + PAGE_SIZE,
                  (sa.start + 1) * PAGE_SIZE⟩, st2', it3) := by
              unfold allocStack
              rw [if_neg hn, h1]
              simp only
              rw [h2]
              simp only
              rw [if_neg hn1, hnth]
              simp only
              rw [hmp]
              simp only
              rw [if_pos (by
                unfold PAGE_SIZE
                omega)]
            refine ⟨fun h0 => absurd h0 hn, ?_, ?_⟩
            · intro st2 sa2 h2'
              rw [halloc] at h2'
              simp at h2'
            · intro s st2 sa2 h2'
              rw [halloc] at h2'
              simp only [Option.some.injEq, Prod.mk.injEq] at h2'
              obtain ⟨hs, hst, hsa⟩ := h2'
              subst hs
              subst hst
              obtain ⟨hmapped, hpres⟩ := hSucc st2' hestop' hmp
              refine ⟨?_, rfl, ?_, ?_, ?_⟩
              · show (sa.start + n) * PAGE_SIZE + PAGE_SIZE -
                    (sa.start + 1) * PAGE_SIZE = n * PAGE_SIZE
                unfold PAGE_SIZE
                omega
              · exact hmapped
              · have hgq : (sa.start + 1) * PAGE_SIZE / PAGE_SIZE - 1 = sa.start := by
                  unfold PAGE_SIZE
                  omega
                show translatePage st ((sa.start + 1) * PAGE_SIZE / PAGE_SIZE - 1) = none →
                  translatePage st2' ((sa.start + 1) * PAGE_SIZE / PAGE_SIZE - 1) = none
                rw [hgq]
                intro hq0
                exact hpres sa.start (hcanon sa.start (Nat.le_refl _) hss)
                  (Or.inl (by omega)) hq0
              · exact hpres
    · -- second page unavailable : stack_start or nth fails, state unchanged
      have h2 : (⟨sa.start + 1, sa.stop⟩ : PageIter).nextPage =
          (none, ⟨sa.start + 1, sa.stop⟩) := by
        simp [PageIter.nextPage, hss2]
      have halloc : allocStack st sa n = some (none, st, sa) := by
        unfold allocStack
        rw [if_neg hn, h1]
        simp only
        rw [h2]
      refine ⟨fun h0 => absurd h0 hn, ?_, ?_⟩
      · intro st2 sa2 h2'
        rw [halloc] at h2'
        simp only [Option.some.injEq, Prod.mk.injEq] at h2'
        exact ⟨h2'.2.1.symm, h2'.2.2.symm⟩
      · intro s st2 sa2 h2'
        rw [halloc] at h2'
        simp at h2'
  · -- the range is exhausted : no guard page available, state unchanged
    have h1 : sa.nextPage = (none, sa) := by
      simp [PageIter.nextPage, hss]
    have halloc : allocStack st sa n = some (none, st, sa) := by
      unfold allocStack
      rw [if_neg hn, h1]
    refine ⟨fun h0 => absurd h0 hn, ?_, ?_⟩
    · intro st2 sa2 h2'
      rw [halloc] at h2'
      simp only [Option.some.injEq, Prod.mk.injEq] at h2'
      exact ⟨h2'.2.1.symm, h2'.2.2.symm⟩
    · intro s st2 sa2 h2'
      rw [halloc] at h2'
      simp at h2'

/-- **C6 witness**: on the empty mapper with page range `10..30`,
`alloc_stack(2)` succeeds with `top = 53248`, `bottom = 45056`
(so `top - bottom = 2 * 4096`), maps pages 11 and 12, and preserves
untranslatedness of the guard page 10 and of every other page outside
`11..12`. -/
theorem alloc_stack_spec_witness :
    allocStack emptyMapper ⟨10, 30⟩ 2 =
      some (some ⟨53248, 45056⟩, c6State, ⟨13, 30⟩) ∧
    ((⟨53248, 45056⟩ : Stack).top - (⟨53248, 45056⟩ : Stack).bottom = 2 * PAGE_SIZE ∧
      (⟨53248, 45056⟩ : Stack).bottom = ((⟨10, 30⟩ : PageIter).start + 1) * PAGE_SIZE ∧
      (∀ k, k < 2 → PageMapped c6State ((⟨10, 30⟩ : PageIter).start + 1 + k)) ∧
      (translatePage emptyMapper
          ((⟨53248, 45056⟩ : Stack).bottom / PAGE_SIZE - 1) = none →
        translatePage c6State
          ((⟨53248, 45056⟩ : Stack).bottom / PAGE_SIZE - 1) = none) ∧
      (∀ q, canonicalPage q →
        (q < (⟨10, 30⟩ : PageIter).start + 1 ∨ (⟨10, 30⟩ : PageIter).start + 2 < q) →
        translatePage emptyMapper q = none → translatePage c6State q = none)) :=
  ⟨rfl,
    (@alloc_stack_spec emptyMapper ⟨10, 30⟩ 2 (fun a => if a = 0 then 4 else 0)
      ⟨Nat.one_pos, fun _ _ h => nomatch h⟩
      ⟨rfl, fun _ _ _ _ hp => absurd hp Bool.false_ne_true,
        fun _ _ _ _ _ _ _ _ hp _ _ => absurd hp Bool.false_ne_true⟩
      (fun r _ h2 => Or.inl (by
        have h2' : r ≤ 30 := h2
        unfold PAGE_SIZE
        omega))).2.2 ⟨53248, 45056⟩ c6State ⟨13, 30⟩ rfl⟩

end Trust
